import Mathlib

/-!
# Wave dumping (`wavedump.c`)

A shallow embedding of the RIFF/WAVE writer of the Audio Overload SDK.

* Machine integers are natural numbers, reduced modulo `2^16` or `2^32` where
  the C code stores them in a `uint16` or `uint32`.
* A byte is a natural number; byte sequences are lists.
* The embedding is of a little-endian host: a `uint32` lies in memory as its
  four bytes, least significant first.
* The session (`wavedump_t`) and the streams it writes to are passed explicitly.
-/

namespace Wavedump

/-! ## Machine integers and their bytes -/

/-- Value kept by a `uint16` object. -/
def u16 (x : Nat) : Nat := x % 65536

/-- Value kept by a `uint32` object. -/
def u32 (x : Nat) : Nat := x % 4294967296

/-- Result of a C `int` computation whose mathematical value is `x`. Beyond the
range of `int` the C behaviour is undefined; the embedding takes the 32-bit
two's complement wrap there. -/
@[irreducible]
def wrap_int (x : Int) : Int := (x + 2147483648) % 4294967296 - 2147483648

/-- Conversion of an `int` to `uint16`. -/
@[irreducible]
def int_to_u16 (x : Int) : Nat := (x % 65536).toNat

/-- Memory image of a `uint16`. -/
def store16 (x : Nat) : List Nat := [x % 256, x / 256 % 256]

/-- Memory image of a `uint32`. -/
def store32 (x : Nat) : List Nat :=
  [x % 256, x / 256 % 256, x / 65536 % 256, x / 16777216 % 256]

/-- Little-endian 16-bit field at offset `off` of a byte sequence. -/
def load16 (bs : List Nat) (off : Nat) : Nat :=
  bs.getD off 0 + 256 * bs.getD (off + 1) 0

/-- Little-endian 32-bit field at offset `off` of a byte sequence. -/
def load32 (bs : List Nat) (off : Nat) : Nat :=
  bs.getD off 0 + 256 * bs.getD (off + 1) 0 + 65536 * bs.getD (off + 2) 0
    + 16777216 * bs.getD (off + 3) 0

/-- The bytes of a string literal, without its terminator. -/
def str_bytes (s : String) : List Nat := s.toList.map Char.toNat

/-- The expression `*(uint32*)"abcd"`: the first four bytes of a string literal
read as a `uint32`. -/
def str_u32 (s : String) : Nat := load32 (str_bytes s) 0

/-- Modelled from the spec: the macro `LE16` of `ao.h`, which is not among the
sources. The spec has every container field little-endian on the wire; on the
little-endian host embedded here a field already lies in memory in that order,
so the macro hands its argument on unchanged, at the argument's own type. -/
def LE16 {α : Type} (x : α) : α := x

/-- Modelled from the spec: the macro `LE32` of `ao.h`, which is not among the
sources; see `LE16`. -/
def LE32 {α : Type} (x : α) : α := x

/-! ## Chunk structures -/

structure RIFFCHUNK where
  FOURCC : Nat
  Size : Nat

structure WAVEFORMAT_PCM where
  wFormatTag : Nat
  nChannels : Nat
  nSamplesPerSec : Nat
  nAvgBytesPerSec : Nat
  nBlockAlign : Nat
  wBitsPerSample : Nat

def WAVE_FORMAT_PCM : Nat := 1

structure WAVEHEADER where
  cRIFF : RIFFCHUNK
  WAVE : Nat
  cfmt : RIFFCHUNK
  Format : WAVEFORMAT_PCM
  cdata : RIFFCHUNK

structure CUEHEADER where
  ccue : RIFFCHUNK
  points : Nat

structure CUEPOINT where
  dwName : Nat
  dwPosition : Nat
  fccChunk : Nat
  dwChunkStart : Nat
  dwBlockStart : Nat
  dwSampleOffset : Nat

def BUFFSIZE : Nat := 32768

/-- Memory image of a `RIFFCHUNK`: two `uint32`, in declaration order. -/
def RIFFCHUNK.bytes (c : RIFFCHUNK) : List Nat := store32 c.FOURCC ++ store32 c.Size

/-- Memory image of a `WAVEFORMAT_PCM`, fields in declaration order; every field
is aligned to its own size, so there is no padding. -/
def WAVEFORMAT_PCM.bytes (f : WAVEFORMAT_PCM) : List Nat :=
  store16 f.wFormatTag ++ store16 f.nChannels ++ store32 f.nSamplesPerSec
    ++ store32 f.nAvgBytesPerSec ++ store16 f.nBlockAlign ++ store16 f.wBitsPerSample

/-- Memory image of a `WAVEHEADER`. -/
def WAVEHEADER.bytes (h : WAVEHEADER) : List Nat :=
  h.cRIFF.bytes ++ store32 h.WAVE ++ h.cfmt.bytes ++ h.Format.bytes ++ h.cdata.bytes

/-- Memory image of a `CUEHEADER`. -/
def CUEHEADER.bytes (c : CUEHEADER) : List Nat := c.ccue.bytes ++ store32 c.points

/-- Memory image of a `CUEPOINT`. -/
def CUEPOINT.bytes (p : CUEPOINT) : List Nat :=
  store32 p.dwName ++ store32 p.dwPosition ++ store32 p.fccChunk
    ++ store32 p.dwChunkStart ++ store32 p.dwBlockStart ++ store32 p.dwSampleOffset

def sizeof_RIFFCHUNK : Nat := 8
def sizeof_WAVEFORMAT_PCM : Nat := 16
def sizeof_WAVEHEADER : Nat := 44
def sizeof_CUEPOINT : Nat := 24
def sizeof_uint32 : Nat := 4

/-! ## `wavedump_header_fill` -/

/-- The header that `wavedump_header_fill` leaves in `*h`. Every assignment
reduces its right-hand side to the width of the field assigned.
`file_size - sizeof(RIFFCHUNK)` is an unsigned subtraction; `channels *
bits_per_sample` is computed in `int`; the product for `nAvgBytesPerSec` is
taken from the two fields already stored. -/
def wavedump_header_fill
    (data_size file_size sample_rate bits_per_sample channels : Nat) : WAVEHEADER :=
  let nChannels := u16 (LE16 channels)
  let nSamplesPerSec := u32 (LE16 sample_rate)
  let nBlockAlign :=
    int_to_u16 (LE16 (Int.tdiv (wrap_int ((channels : Int) * (bits_per_sample : Int))) 8))
  let nAvgBytesPerSec := u32 (LE32 (nSamplesPerSec * nBlockAlign))
  { cRIFF := { FOURCC := u32 (LE32 (str_u32 "RIFF")),
               Size := u32 (LE32 (file_size + 4294967296 - sizeof_RIFFCHUNK)) },
    WAVE := u32 (LE32 (str_u32 "WAVE")),
    cfmt := { FOURCC := u32 (LE32 (str_u32 "fmt ")),
              Size := u32 (LE32 sizeof_WAVEFORMAT_PCM) },
    Format := { wFormatTag := u16 (LE16 WAVE_FORMAT_PCM),
                nChannels := nChannels,
                nSamplesPerSec := nSamplesPerSec,
                nAvgBytesPerSec := nAvgBytesPerSec,
                nBlockAlign := nBlockAlign,
                wBitsPerSample := u16 (LE16 bits_per_sample) },
    cdata := { FOURCC := u32 (LE32 (str_u32 "data")),
               Size := u32 (LE32 data_size) } }

/-! ## The session and the streams it writes to -/

/-- The two streams a session can hold in `wave->file`. -/
inductive FILE where
  | stdout
  | disk
  deriving DecidableEq, Repr

/-- A stdio stream on a regular file: the bytes of the file and the position
indicator. -/
structure Stream where
  data : List Nat
  pos : Nat

/-- Writing `src` at the position indicator. Writes on the file are taken to
transfer every byte: the code never looks at their result. -/
def Stream.fwrite (f : Stream) (src : List Nat) : Stream :=
  { data := f.data.take f.pos ++ src ++ f.data.drop (f.pos + src.length),
    pos := f.pos + src.length }

/-- The call `fseek(f, 0, SEEK_SET)`. -/
def Stream.rewind (f : Stream) : Stream := { f with pos := 0 }

/-- One `fwrite` call on `stdout`: the byte count asked for and the bytes that
were transferred. -/
structure Write where
  requested : Nat
  data : List Nat
  deriving DecidableEq, Repr

/-- Modelled from the spec: the struct `wavedump_t` of `wavedump.h`, which is not
among the sources, with the fields `wavedump.c` uses: the file handle (`none`
is `NULL`), the cumulative data size, the loop sample (0 is unset), the backend
flag and, for the memory backend, the buffer, its capacity and its current
length. The counters are `uint32`. `mem` gives the byte at each offset from
the buffer's start and the block ends at `memsize`. A copy that runs past the
block is undefined in C: the counters are still computed as the source
computes them, and what is proved of the bytes of the buffer is proved for
copies that stay inside the block (`copy_inside`). -/
structure wavedump_t where
  file : Option FILE
  data_size : Nat
  loop_sample : Nat
  ismem : Bool
  mem : Nat → Nat
  memsize : Nat
  len : Nat

/-- A session together with the world it acts on: the file created by
`fopen_derivative` and the sequence of writes issued on `stdout`. -/
structure State where
  wave : wavedump_t
  disk : Stream
  stdout : List Write

/-- What the code takes from outside `wavedump.c`. -/
structure Env where
  /-- The value of `sizeof(stereo_sample_t)`; the type is declared in a header that is not
  among the sources. -/
  sizeof_stereo_sample_t : Nat
  /-- Whether `malloc` of the initial buffer succeeds. -/
  malloc_ok : Bool
  /-- Whether `fopen_derivative` returns a stream. -/
  fopen_ok : Bool
  /-- Contents of the block `malloc` returns. -/
  heap : Nat → Nat
  /-- The 40 bytes that follow the local `temp` of `wavedump_open` in memory. -/
  stack : Nat → Nat
  /-- Outcome of the `k`-th `fwrite` on `stdout` when asked for `n` bytes: the
  count transferred (never more than `n`). -/
  fwrite_stdout : Nat → Nat → Nat
  /-- What `ftell(stdout)` reports, as a `long`. -/
  ftell_stdout : Nat

/-- The first `n` bytes of a buffer. -/
def image (mem : Nat → Nat) (n : Nat) : List Nat := (List.range n).map mem

/-- The `n` bytes of a buffer that start at offset `off`. -/
def slice (mem : Nat → Nat) (off n : Nat) : List Nat :=
  (List.range n).map (fun k => mem (off + k))

/-- The call `memcpy(mem + off, src, src.length)`. -/
def memcpy (mem : Nat → Nat) (off : Nat) (src : List Nat) : Nat → Nat :=
  fun a => if off ≤ a ∧ a < off + src.length then src.getD (a - off) 0 else mem a

/-- The call `memset(mem, c, n)`. -/
def memset (mem : Nat → Nat) (c n : Nat) : Nat → Nat :=
  fun a => if a < n then c else mem a

/-- `wavedump_mem`: append `src_buf` to the buffer, growing the capacity once
by the factor 1.5 when the new length exceeds it. `memsize * 1.5` is exact in
`double` and the conversion back to `uint32` drops the fraction. A failing
`realloc` ends the process, so every state returned is one where it succeeded;
it keeps the bytes already stored. The block is grown once, whatever the
length needed: when `len + src_len` exceeds the grown capacity the `memcpy`
leaves the block, and only `len` and `memsize` of the result mean anything
(`copy_inside` is the condition under which the copy is defined). -/
def wavedump_mem (wave : wavedump_t) (src_buf : List Nat) : wavedump_t :=
  let i := u32 (wave.len + src_buf.length)
  let memsize := if i > wave.memsize then u32 (wave.memsize * 3 / 2) else wave.memsize
  { wave with memsize := memsize, mem := memcpy wave.mem wave.len src_buf, len := i }

/-- `wavedump_write`: to the buffer in the memory backend, to `wave->file`
otherwise. -/
def wavedump_write (st : State) (src_buf : List Nat) : State :=
  if st.wave.ismem then { st with wave := wavedump_mem st.wave src_buf }
  else
    match st.wave.file with
    | some FILE.disk => { st with disk := st.disk.fwrite src_buf }
    | some FILE.stdout => { st with stdout := st.stdout ++ [⟨src_buf.length, src_buf⟩] }
    | none => st

/-- The call `strlen(s)`: the bytes before the first NUL. -/
def strlen (s : List Nat) : Nat := (s.takeWhile (fun b => b != 0)).length

/-- The first `strlen s + 1` bytes at `s`: the string and its terminator. -/
def c_string (s : List Nat) : List Nat := s.takeWhile (fun b => b != 0) ++ [0]

/-- `wavedump_LIST_adtl_labl_write`: the five writes, with the two sizes
computed as in the source and then stored in `uint32` fields. -/
def wavedump_LIST_adtl_labl_write (st : State) (point_id : Nat) (label : List Nat) : State :=
  let adtl := u32 (LE32 (str_u32 "adtl"))
  let label_len := strlen label + 1
  let clabl_Size := u32 (sizeof_uint32 + label_len)
  let clabl : RIFFCHUNK := { FOURCC := u32 (LE32 (str_u32 "labl")), Size := clabl_Size }
  let cLIST : RIFFCHUNK :=
    { FOURCC := u32 (LE32 (str_u32 "LIST")),
      Size := u32 (sizeof_uint32 + sizeof_RIFFCHUNK + clabl_Size) }
  let st := wavedump_write st cLIST.bytes
  let st := wavedump_write st (store32 adtl)
  let st := wavedump_write st clabl.bytes
  let st := wavedump_write st (store32 (u32 point_id))
  wavedump_write st (c_string label)

/-- `wavedump_open`: the result and the state it leaves. `fopen_derivative`
(not among the sources) creates the file empty. The placeholder of the file
backend is written from `&temp`, four zero bytes, and runs on over the 40
bytes behind it. -/
def wavedump_open (env : Env) (st : State) (fn : String) : Bool × State :=
  let wave := { st.wave with data_size := 0, loop_sample := 0, len := 0, ismem := false }
  if fn = "-" then
    let wave := { wave with file := some FILE.stdout, memsize := 8 * 1024 * 1024,
                            mem := env.heap }
    if env.malloc_ok then
      let wave := { wave with ismem := true }
      (true, { st with wave := { wave with mem := memset wave.mem 0 sizeof_WAVEHEADER,
                                           len := sizeof_WAVEHEADER } })
    else (false, { st with wave := wave })
  else if env.fopen_ok then
    let disk : Stream := { data := [], pos := 0 }
    (true, { st with wave := { wave with file := some FILE.disk },
                     disk := disk.fwrite (store32 0 ++ (List.range 40).map env.stack) })
  else (false, { st with wave := { wave with file := none } })

/-- `wavedump_loop_set`; `none` when `assert(wave->file)` fails. -/
def wavedump_loop_set (st : State) (loop_sample : Nat) : Option State :=
  if st.wave.file.isSome then
    some { st with wave := { st.wave with loop_sample := u32 loop_sample } }
  else none

/-- `wavedump_append`. The pair `(len, buf)` of the source is the list of the
`len` bytes at `buf`; `len` is a `uint32`, so one call carries fewer than
`2^32` bytes. -/
def wavedump_append (st : State) (buf : List Nat) : State :=
  if st.wave.file.isSome then
    wavedump_write
      { st with wave := { st.wave with data_size := u32 (st.wave.data_size + buf.length) } }
      buf
  else st

/-- The loop of the memory-backend flush, `for (i = 0; i < bq; )`. The state
is `i` and the writes issued so far on `stdout`; the first argument bounds the
number of iterations still allowed. A short write ends the loop. -/
def flush_loop (mem : Nat → Nat) (wr : Nat → Nat → Nat) (bytes r bq : Nat) :
    Nat → Nat → List Write → List Write
  | 0, _, out => out
  | fuel + 1, i, out =>
    if i < bq then
      let n := min (wr out.length bytes) bytes
      let out := out ++ [⟨bytes, slice mem i n⟩]
      if n ≠ bytes then out
      else
        let i := u32 (i + bytes)
        if i = bq then
          let m := min (wr out.length r) r
          let out := out ++ [⟨r, slice mem bq m⟩]
          if m ≠ r then out else flush_loop mem wr bytes r bq fuel i out
        else flush_loop mem wr bytes r bq fuel i out
    else out

/-- The memory-backend flush of `wavedump_finish`: quotient, remainder, and the
loop. Each iteration that goes on advances `i` by `bytes`, from 0 up to
`bytes * q`, so the loop makes at most `q` iterations and `q + 1` are allowed
(`flush_loop_fuel`: any larger allowance gives the same writes). -/
def flush (mem : Nat → Nat) (wr : Nat → Nat → Nat) (file_size bytes : Nat)
    (out : List Write) : List Write :=
  let q := file_size / bytes
  let r := file_size % bytes
  let bq := u32 (bytes * q)
  flush_loop mem wr bytes r bq (q + 1) 0 out

/-- The `CUEHEADER` that `wavedump_finish` builds. -/
def loop_cue : CUEHEADER :=
  { ccue := { FOURCC := u32 (LE32 (str_u32 "cue ")),
              Size := u32 (LE32 (4 + 1 * sizeof_CUEPOINT)) },
    points := u32 (LE32 1) }

/-- The `CUEPOINT` that `wavedump_finish` builds. -/
def loop_point (loop_sample : Nat) : CUEPOINT :=
  { dwName := u32 (LE32 0),
    dwChunkStart := u32 (LE32 0),
    dwBlockStart := u32 (LE32 0),
    dwPosition := u32 (LE32 loop_sample),
    dwSampleOffset := u32 (LE32 loop_sample),
    fccChunk := u32 (LE32 (str_u32 "data")) }

/-- First step of `wavedump_finish`: the pad byte after an odd data size. -/
def finish_pad (st : State) : State :=
  if st.wave.data_size % 2 = 1 then wavedump_write st [0] else st

/-- Second step of `wavedump_finish`: the `cue ` chunk and the label chunk when
a loop sample is set. -/
def finish_loop (st : State) : State :=
  if st.wave.loop_sample ≠ 0 then
    let st1 := wavedump_write st loop_cue.bytes
    let st2 := wavedump_write st1 (loop_point st.wave.loop_sample).bytes
    wavedump_LIST_adtl_labl_write st2 0 (str_bytes "Loop point")
  else st

/-- The value `wavedump_finish` gives `file_size`: the buffer length, or what
`ftell` reports, a `long` taken to be wide enough for the position, converted
to `uint32`. -/
def finish_file_size (env : Env) (st : State) : Nat :=
  if st.wave.ismem then st.wave.len
  else
    match st.wave.file with
    | some FILE.stdout => u32 env.ftell_stdout
    | _ => u32 st.disk.pos

/-- Third step of `wavedump_finish`: fill the header and put it in place; the
memory backend then flushes the buffer to `stdout`. The arguments arrive in
`uint32` and `uint16` parameters. Outside the memory backend the handle is
the created file; when it is `stdout` (the state a failed allocation leaves)
the header is recorded as one more write on `stdout`. -/
def finish_header (env : Env) (st : State)
    (sample_rate bits_per_sample channels : Nat) : State :=
  let file_size := finish_file_size env st
  let h := wavedump_header_fill st.wave.data_size file_size
    (u32 sample_rate) (u16 bits_per_sample) (u16 channels)
  if st.wave.ismem then
    let mem := memcpy st.wave.mem 0 h.bytes
    let bytes := u32 (BUFFSIZE * env.sizeof_stereo_sample_t * 2)
    { st with wave := { st.wave with mem := mem },
              stdout := flush mem env.fwrite_stdout file_size bytes st.stdout }
  else
    match st.wave.file with
    | some FILE.stdout => { st with stdout := st.stdout ++ [⟨sizeof_WAVEHEADER, h.bytes⟩] }
    | _ => { st with disk := st.disk.rewind.fwrite h.bytes }

/-- `wavedump_finish`: pad, loop chunks, header, flush, and the handle is
cleared; nothing at all when the handle is already `NULL`. -/
def wavedump_finish (env : Env) (st : State)
    (sample_rate bits_per_sample channels : Nat) : State :=
  if st.wave.file.isSome then
    let st1 := finish_header env (finish_loop (finish_pad st))
      sample_rate bits_per_sample channels
    { st1 with wave := { st1.wave with file := none } }
  else st

/-- The container the session has assembled: the file of the file backend, the
first `len` bytes of the buffer in the memory backend (the block handed to the
flush loop). -/
def finished_output (st : State) : List Nat :=
  if st.wave.ismem then image st.wave.mem st.wave.len else st.disk.data

/-! ## Sessions -/

/-- A call made between `wavedump_open` and `wavedump_finish`. -/
inductive Call where
  | append (buf : List Nat)
  | loop_set (loop_sample : Nat)

def step (st : State) : Call → Option State
  | Call.append buf => some (wavedump_append st buf)
  | Call.loop_set s => wavedump_loop_set st s

/-- The calls in order; `none` when an assertion fails. -/
def run (st : State) : List Call → Option State
  | [] => some st
  | c :: cs => (step st c).bind (fun st1 => run st1 cs)

/-- A whole session: open, the calls, finish. `none` when the open fails or an
assertion does. -/
def session (env : Env) (st0 : State) (fn : String) (calls : List Call)
    (sample_rate bits_per_sample channels : Nat) : Option State :=
  match wavedump_open env st0 fn with
  | (true, st) =>
    (run st calls).map (fun st1 => wavedump_finish env st1 sample_rate bits_per_sample channels)
  | (false, _) => none

/-- All bytes handed to `wavedump_append`, in call order. -/
def appended : List Call → List Nat
  | [] => []
  | Call.append buf :: cs => buf ++ appended cs
  | Call.loop_set _ :: cs => appended cs

/-- The loop sample in force after the calls, starting from `s0`. -/
def loop_after (s0 : Nat) : List Call → Nat
  | [] => s0
  | Call.append _ :: cs => loop_after s0 cs
  | Call.loop_set s :: cs => loop_after (u32 s) cs

/-- The bytes `stdout` has received through a sequence of writes. -/
def stdout_bytes : List Write → List Nat
  | [] => []
  | w :: ws => w.data ++ stdout_bytes ws

/-! ## What the proofs speak about -/

/-- An open session of either backend: the handle is held, and in the file
backend it is the created file, positioned at its end. -/
structure Opened (st : State) : Prop where
  mem_file : st.wave.ismem = true → st.wave.file = some FILE.stdout
  disk_file : st.wave.ismem = false →
    st.wave.file = some FILE.disk ∧ st.disk.pos = st.disk.data.length
  len_lt : st.wave.len < 4294967296

/-- The step from `st` to `st1` put the bytes `bs` behind what the session had
assembled and touched nothing else. -/
structure Emits (st st1 : State) (bs : List Nat) : Prop where
  opened : Opened st1
  out : finished_output st1 = finished_output st ++ bs
  data_size : st1.wave.data_size = st.wave.data_size
  loop_sample : st1.wave.loop_sample = st.wave.loop_sample
  ismem : st1.wave.ismem = st.wave.ismem
  len : st.wave.ismem = true → st1.wave.len = st.wave.len + bs.length
  stdout : st1.stdout = st.stdout

/-- The bytes `wavedump_LIST_adtl_labl_write` hands to `wavedump_write`, in
order. -/
def labl_chunk (point_id : Nat) (label : List Nat) : List Nat :=
  let clabl_Size := u32 (sizeof_uint32 + (strlen label + 1))
  RIFFCHUNK.bytes { FOURCC := u32 (LE32 (str_u32 "LIST")),
                    Size := u32 (sizeof_uint32 + sizeof_RIFFCHUNK + clabl_Size) }
    ++ store32 (u32 (LE32 (str_u32 "adtl")))
    ++ RIFFCHUNK.bytes { FOURCC := u32 (LE32 (str_u32 "labl")), Size := clabl_Size }
    ++ store32 (u32 point_id)
    ++ c_string label

/-- The pad byte `wavedump_finish` writes for data size `data_size`, if any. -/
def pad_bytes (data_size : Nat) : List Nat := if data_size % 2 = 1 then [0] else []

/-- The loop chunks `wavedump_finish` writes for loop sample `loop_sample`, if
any. -/
def loop_bytes (loop_sample : Nat) : List Nat :=
  if loop_sample ≠ 0 then
    loop_cue.bytes ++ (loop_point loop_sample).bytes ++ labl_chunk 0 (str_bytes "Loop point")
  else []

/-- The bytes `wavedump_finish` puts behind the sample data of a session with
data size `data_size` and loop sample `loop_sample`. -/
def trailer (data_size loop_sample : Nat) : List Nat :=
  pad_bytes data_size ++ loop_bytes loop_sample

/-- Length of the container a session assembles: header, data, trailer. -/
def container_size (calls : List Call) : Nat :=
  44 + (appended calls).length
    + (trailer (appended calls).length (loop_after 0 calls)).length

/-- The copy `wavedump_mem` makes for `src_buf` stays inside the block: the
bytes go to the offsets from `len` on, and the block has `memsize` bytes once
the call has grown it (a `uint32`). Where this fails the `memcpy` of the
source writes past the allocation, which C leaves undefined, and nothing is
stated about the buffer. -/
def copy_inside (wave : wavedump_t) (src_buf : List Nat) : Prop :=
  wave.len + src_buf.length ≤ (wavedump_mem wave src_buf).memsize
    ∧ (wavedump_mem wave src_buf).memsize < 4294967296

instance (wave : wavedump_t) (src_buf : List Nat) : Decidable (copy_inside wave src_buf) :=
  inferInstanceAs (Decidable (_ ∧ _))

/-- The buffer of a memory-backend state lies inside its block: the length
does not exceed the capacity. -/
def inside_block (st : State) : Prop :=
  st.wave.ismem = true → st.wave.len ≤ st.wave.memsize

instance (st : State) : Decidable (inside_block st) :=
  inferInstanceAs (Decidable (_ → _))

/-- The copy of one `wavedump_write` stays inside the block; the file backend
makes no copy. -/
def write_inside (st : State) (src_buf : List Nat) : Prop :=
  st.wave.ismem = true → copy_inside st.wave src_buf

instance (st : State) (src_buf : List Nat) : Decidable (write_inside st src_buf) :=
  inferInstanceAs (Decidable (_ → _))

/-- A sequence of `wavedump_write` calls from `st` on, each copy inside the
block it finds. -/
def writes_inside (st : State) : List (List Nat) → Prop
  | [] => True
  | src_buf :: rest => write_inside st src_buf ∧ writes_inside (wavedump_write st src_buf) rest

/-- The five buffers `wavedump_LIST_adtl_labl_write` hands to `wavedump_write`,
in order. -/
def labl_writes (point_id : Nat) (label : List Nat) : List (List Nat) :=
  let clabl_Size := u32 (sizeof_uint32 + (strlen label + 1))
  [RIFFCHUNK.bytes { FOURCC := u32 (LE32 (str_u32 "LIST")),
                     Size := u32 (sizeof_uint32 + sizeof_RIFFCHUNK + clabl_Size) },
   store32 (u32 (LE32 (str_u32 "adtl"))),
   RIFFCHUNK.bytes { FOURCC := u32 (LE32 (str_u32 "labl")), Size := clabl_Size },
   store32 (u32 point_id),
   c_string label]

/-- The buffers `wavedump_finish` hands to `wavedump_write` before it fills the
header, in order: the pad byte after an odd data size, and with a loop sample
the cue header, the cue point and the pieces of the label chunk. -/
def finish_writes (data_size loop_sample : Nat) : List (List Nat) :=
  (if data_size % 2 = 1 then [[0]] else [])
    ++ (if loop_sample ≠ 0 then
          [loop_cue.bytes, (loop_point loop_sample).bytes]
            ++ labl_writes 0 (str_bytes "Loop point")
        else [])

/-- Every copy into the buffer stays inside the block, all through the
session that makes `calls` from `st` on and then calls `wavedump_finish`: the
copy of each `wavedump_append`, made on the state the calls before it leave,
and the copies of `wavedump_finish`. -/
def run_inside (st : State) : List Call → Prop
  | [] => writes_inside st (finish_writes st.wave.data_size st.wave.loop_sample)
  | Call.append buf :: cs => write_inside st buf ∧ run_inside (wavedump_append st buf) cs
  | Call.loop_set loop_sample :: cs =>
    run_inside ((wavedump_loop_set st loop_sample).getD st) cs

/-- The session `wavedump_open(fn)`, `calls`, `wavedump_finish` keeps every
copy inside the block. The block is grown once by the factor 1.5 per copy,
whatever the length needed, so this is a condition on the session; it holds
for every session of the file backend, which has no buffer. -/
def mem_fits (env : Env) (st0 : State) (fn : String) (calls : List Call) : Prop :=
  run_inside (wavedump_open env st0 fn).2 calls

/-- Decision procedure for `writes_inside`. -/
def writes_inside_dec : (ws : List (List Nat)) → (st : State) → Decidable (writes_inside st ws)
  | [], _ => isTrue trivial
  | src_buf :: rest, st =>
    @instDecidableAnd (write_inside st src_buf) (writes_inside (wavedump_write st src_buf) rest)
      inferInstance (writes_inside_dec rest (wavedump_write st src_buf))

instance (st : State) (ws : List (List Nat)) : Decidable (writes_inside st ws) :=
  writes_inside_dec ws st

/-- Decision procedure for `run_inside`. -/
def run_inside_dec : (calls : List Call) → (st : State) → Decidable (run_inside st calls)
  | [], st =>
    inferInstanceAs
      (Decidable (writes_inside st (finish_writes st.wave.data_size st.wave.loop_sample)))
  | Call.append buf :: cs, st =>
    @instDecidableAnd (write_inside st buf) (run_inside (wavedump_append st buf) cs)
      inferInstance (run_inside_dec cs (wavedump_append st buf))
  | Call.loop_set loop_sample :: cs, st =>
    run_inside_dec cs ((wavedump_loop_set st loop_sample).getD st)

instance (st : State) (calls : List Call) : Decidable (run_inside st calls) :=
  run_inside_dec calls st

instance (env : Env) (st0 : State) (fn : String) (calls : List Call) :
    Decidable (mem_fits env st0 fn calls) :=
  inferInstanceAs (Decidable (run_inside _ _))

/-- A concrete environment: four-byte stereo samples, allocation and file
creation succeed, every write on `stdout` is complete. -/
def example_env : Env :=
  { sizeof_stereo_sample_t := 4, malloc_ok := true, fopen_ok := true,
    heap := fun _ => 170, stack := fun _ => 85, fwrite_stdout := fun _ n => n,
    ftell_stdout := 0 }

/-- A concrete state before `wavedump_open`: the struct holds whatever it held. -/
def example_state : State :=
  { wave := { file := none, data_size := 7, loop_sample := 9, ismem := false,
              mem := fun _ => 0, memsize := 0, len := 3 },
    disk := { data := [], pos := 0 }, stdout := [] }

/-- The state of a memory-backend session opened in the example environment,
with loop sample 5 set. -/
def example_loop_state : State :=
  ⟨{ (wavedump_open example_env example_state "-").2.wave with loop_sample := 5 },
    (wavedump_open example_env example_state "-").2.disk,
    (wavedump_open example_env example_state "-").2.stdout⟩

/-- A write that transferred fewer bytes than it was asked for. -/
def Write.short (w : Write) : Prop := w.data.length < w.requested

/-- No write follows a short one. -/
def stops_at_short : List Write → Prop
  | [] => True
  | w :: ws => (w.short → ws = []) ∧ stops_at_short ws

/-- An environment in which every write on `stdout` transfers one byte less
than asked for (and nothing when asked for nothing). -/
def short_write_env : Env := { example_env with fwrite_stdout := fun _ n => n - 1 }

/-- A memory-backend session whose buffer holds two blocks of 262144 bytes. -/
def two_block_state : State :=
  { wave := { file := some FILE.stdout, data_size := 524244, loop_sample := 0, ismem := true,
              mem := fun a => a % 256, memsize := 8388608, len := 524288 },
    disk := { data := [], pos := 0 }, stdout := [] }

/-! ## Bytes and buffers -/

theorem image_length (mem : Nat → Nat) (n : Nat) : (image mem n).length = n := by
  simp [image]

theorem image_memcpy_append (mem : Nat → Nat) (n : Nat) (src : List Nat) :
    image (memcpy mem n src) (n + src.length) = image mem n ++ src := by
  unfold image
  rw [List.range_add, List.map_append]
  congr 1
  · apply List.map_congr_left
    intro a ha
    have : a < n := List.mem_range.mp ha
    simp only [memcpy]
    rw [if_neg (by omega)]
  · apply List.ext_getElem
    · simp
    · intro i h1 h2
      simp only [memcpy, List.getElem_map, List.getElem_range]
      rw [if_pos (by omega)]
      have : n + i - n = i := by omega
      rw [this, List.getD_eq_getElem _ _ h2]

theorem image_memcpy_front (mem : Nat → Nat) (hb : List Nat) (n : Nat)
    (h : hb.length ≤ n) :
    image (memcpy mem 0 hb) n = hb ++ (image mem n).drop hb.length := by
  obtain ⟨k, rfl⟩ : ∃ k, n = hb.length + k := ⟨n - hb.length, by omega⟩
  unfold image
  rw [List.range_add, List.map_append, List.map_append]
  have e1 : (List.map mem (List.range hb.length)).length = hb.length := by simp
  rw [List.drop_left' e1]
  congr 1
  · have := image_memcpy_append mem 0 hb
    simp only [image, Nat.zero_add, List.range_zero, List.map_nil, List.nil_append] at this
    exact this
  · apply List.map_congr_left
    intro a ha
    obtain ⟨b, _, rfl⟩ := List.mem_map.mp ha
    simp only [memcpy]
    rw [if_neg (by omega)]

theorem store32_length (x : Nat) : (store32 x).length = 4 := rfl

theorem RIFFCHUNK_bytes_length (c : RIFFCHUNK) : c.bytes.length = 8 := rfl

theorem CUEHEADER_bytes_length (c : CUEHEADER) : c.bytes.length = 12 := rfl

theorem CUEPOINT_bytes_length (p : CUEPOINT) : p.bytes.length = 24 := rfl

theorem WAVEHEADER_bytes_length (h : WAVEHEADER) : h.bytes.length = 44 := rfl

theorem c_string_length (s : List Nat) : (c_string s).length = strlen s + 1 := by
  simp [c_string, strlen]

theorem labl_chunk_length (point_id : Nat) (label : List Nat) :
    (labl_chunk point_id label).length = 8 + 4 + 8 + 4 + (strlen label + 1) := by
  simp only [labl_chunk, List.length_append, RIFFCHUNK_bytes_length, store32_length,
    c_string_length]

theorem u32_lt (x : Nat) : u32 x < 4294967296 := Nat.mod_lt _ (by decide)

theorem u32_of_lt {x : Nat} (h : x < 4294967296) : u32 x = x := Nat.mod_eq_of_lt h

/-! ## Writes -/

theorem Opened.isSome {st : State} (h : Opened st) : st.wave.file.isSome = true := by
  cases hm : st.wave.ismem
  · rw [(h.disk_file hm).1]; rfl
  · rw [h.mem_file hm]; rfl

theorem Emits.refl {st : State} (h : Opened st) : Emits st st [] :=
  ⟨h, by simp, rfl, rfl, rfl, fun _ => by simp, rfl⟩

theorem Emits.trans {a b c : State} {x y : List Nat}
    (h1 : Emits a b x) (h2 : Emits b c y) : Emits a c (x ++ y) where
  opened := h2.opened
  out := by rw [h2.out, h1.out, List.append_assoc]
  data_size := by rw [h2.data_size, h1.data_size]
  loop_sample := by rw [h2.loop_sample, h1.loop_sample]
  ismem := by rw [h2.ismem, h1.ismem]
  len := by
    intro hm
    rw [h2.len (by rw [h1.ismem]; exact hm), h1.len hm, List.length_append, Nat.add_assoc]
  stdout := by rw [h2.stdout, h1.stdout]

theorem wavedump_write_emits (st : State) (src : List Nat) (h : Opened st)
    (hfit : st.wave.ismem = true → st.wave.len + src.length < 4294967296) :
    Emits st (wavedump_write st src) src := by
  cases hm : st.wave.ismem
  · obtain ⟨hf, hp⟩ := h.disk_file hm
    have e : wavedump_write st src = { st with disk := st.disk.fwrite src } := by
      simp [wavedump_write, hm, hf]
    rw [e]
    refine ⟨⟨?_, ?_, h.len_lt⟩, ?_, rfl, rfl, rfl, ?_, rfl⟩
    · intro h1; simp [hm] at h1
    · intro _; exact ⟨hf, by simp [Stream.fwrite, hp]⟩
    · simp [finished_output, hm, Stream.fwrite, hp]
    · intro h1; simp [hm] at h1
  · have e : wavedump_write st src = { st with wave := wavedump_mem st.wave src } := by
      simp [wavedump_write, hm]
    have hl : u32 (st.wave.len + src.length) = st.wave.len + src.length :=
      u32_of_lt (hfit hm)
    rw [e]
    refine ⟨⟨?_, ?_, ?_⟩, ?_, rfl, rfl, rfl, ?_, rfl⟩
    · intro _; exact h.mem_file hm
    · intro h1; simp [wavedump_mem, hm] at h1
    · exact u32_lt _
    · simp only [finished_output, wavedump_mem, hm, if_true, hl]
      exact image_memcpy_append _ _ _
    · intro _; exact hl

theorem labl_write_emits (st : State) (point_id : Nat) (label : List Nat) (h : Opened st)
    (hfit : st.wave.ismem = true →
      st.wave.len + (labl_chunk point_id label).length < 4294967296) :
    Emits st (wavedump_LIST_adtl_labl_write st point_id label) (labl_chunk point_id label) := by
  rw [labl_chunk_length] at hfit
  unfold wavedump_LIST_adtl_labl_write labl_chunk
  have h1 := wavedump_write_emits st
    (RIFFCHUNK.bytes ⟨u32 (LE32 (str_u32 "LIST")),
        u32 (sizeof_uint32 + sizeof_RIFFCHUNK + u32 (sizeof_uint32 + (strlen label + 1)))⟩)
    h (by intro hm; have := hfit hm; rw [RIFFCHUNK_bytes_length]; omega)
  have m1 := h1.ismem
  have l1 := h1.len
  rw [RIFFCHUNK_bytes_length] at l1
  have h2 := wavedump_write_emits _ (store32 (u32 (LE32 (str_u32 "adtl")))) h1.opened
    (by intro hm; rw [m1] at hm; have := hfit hm; rw [l1 hm, store32_length]; omega)
  have m2 := h2.ismem
  have l2 := h2.len
  rw [store32_length] at l2
  have h3 := wavedump_write_emits _
    (RIFFCHUNK.bytes ⟨u32 (LE32 (str_u32 "labl")), u32 (sizeof_uint32 + (strlen label + 1))⟩)
    h2.opened
    (by intro hm; have hm1 := hm; rw [m2] at hm1; have hm0 := hm1; rw [m1] at hm0
        have := hfit hm0; rw [l2 hm1, l1 hm0, RIFFCHUNK_bytes_length]; omega)
  have m3 := h3.ismem
  have l3 := h3.len
  rw [RIFFCHUNK_bytes_length] at l3
  have h4 := wavedump_write_emits _ (store32 (u32 point_id)) h3.opened
    (by intro hm; have hm2 := hm; rw [m3] at hm2; have hm1 := hm2; rw [m2] at hm1
        have hm0 := hm1; rw [m1] at hm0
        have := hfit hm0; rw [l3 hm2, l2 hm1, l1 hm0, store32_length]; omega)
  have m4 := h4.ismem
  have l4 := h4.len
  rw [store32_length] at l4
  have h5 := wavedump_write_emits _ (c_string label) h4.opened
    (by intro hm; have hm3 := hm; rw [m4] at hm3; have hm2 := hm3; rw [m3] at hm2
        have hm1 := hm2; rw [m2] at hm1; have hm0 := hm1; rw [m1] at hm0
        have := hfit hm0
        rw [l4 hm3, l3 hm2, l2 hm1, l1 hm0, c_string_length]; omega)
  exact (((h1.trans h2).trans h3).trans h4).trans h5

/-! ## `wavedump_finish` -/

theorem labl_loop_point_length :
    (labl_chunk 0 (str_bytes "Loop point")).length = 35 := by
  rw [labl_chunk_length]; rfl

theorem loop_bytes_length (s : Nat) :
    (loop_bytes s).length = if s ≠ 0 then 71 else 0 := by
  unfold loop_bytes
  split
  · simp only [List.length_append, CUEHEADER_bytes_length, CUEPOINT_bytes_length,
      labl_loop_point_length]
  · rfl

theorem pad_bytes_length (d : Nat) : (pad_bytes d).length = d % 2 := by
  unfold pad_bytes
  split
  · simp; omega
  · simp; omega

theorem pad_bytes_u32 (d : Nat) : pad_bytes (u32 d) = pad_bytes d := by
  unfold pad_bytes u32
  have : d % 4294967296 % 2 = d % 2 := by omega
  rw [this]

theorem trailer_length (d s : Nat) :
    (trailer d s).length = d % 2 + if s ≠ 0 then 71 else 0 := by
  simp only [trailer, List.length_append, pad_bytes_length, loop_bytes_length]

theorem finish_pad_emits (st : State) (h : Opened st)
    (hfit : st.wave.ismem = true →
      st.wave.len + (pad_bytes st.wave.data_size).length < 4294967296) :
    Emits st (finish_pad st) (pad_bytes st.wave.data_size) := by
  unfold finish_pad pad_bytes
  unfold pad_bytes at hfit
  split
  · rename_i hodd
    rw [if_pos hodd] at hfit
    exact wavedump_write_emits st [0] h hfit
  · exact Emits.refl h

theorem finish_loop_emits (st : State) (h : Opened st)
    (hfit : st.wave.ismem = true →
      st.wave.len + (loop_bytes st.wave.loop_sample).length < 4294967296) :
    Emits st (finish_loop st) (loop_bytes st.wave.loop_sample) := by
  rw [loop_bytes_length] at hfit
  unfold finish_loop loop_bytes
  split
  · rename_i hs
    rw [if_pos hs] at hfit
    have h1 := wavedump_write_emits st loop_cue.bytes h
      (by intro hm; have := hfit hm; rw [CUEHEADER_bytes_length]; omega)
    have m1 := h1.ismem
    have l1 := h1.len
    rw [CUEHEADER_bytes_length] at l1
    have h2 := wavedump_write_emits _ (loop_point st.wave.loop_sample).bytes h1.opened
      (by intro hm; rw [m1] at hm; have := hfit hm; rw [l1 hm, CUEPOINT_bytes_length]; omega)
    have m2 := h2.ismem
    have l2 := h2.len
    rw [CUEPOINT_bytes_length] at l2
    have h3 := labl_write_emits _ 0 (str_bytes "Loop point") h2.opened
      (by intro hm; have hm1 := hm; rw [m2] at hm1; have hm0 := hm1; rw [m1] at hm0
          have := hfit hm0; rw [l2 hm1, l1 hm0, labl_loop_point_length]; omega)
    exact (h1.trans h2).trans h3
  · exact Emits.refl h

theorem finish_tail_emits (st : State) (h : Opened st)
    (hfit : st.wave.ismem = true →
      st.wave.len + (trailer st.wave.data_size st.wave.loop_sample).length < 4294967296) :
    Emits st (finish_loop (finish_pad st)) (trailer st.wave.data_size st.wave.loop_sample) := by
  simp only [trailer, List.length_append] at hfit
  have h1 := finish_pad_emits st h (by intro hm; have := hfit hm; omega)
  have h2 := finish_loop_emits (finish_pad st) h1.opened
    (by intro hm; rw [h1.ismem] at hm; have := hfit hm
        rw [h1.len hm, h1.loop_sample]; omega)
  rw [h1.loop_sample] at h2
  exact h1.trans h2

theorem rewind_fwrite_data (f : Stream) (hb : List Nat) :
    (f.rewind.fwrite hb).data = hb ++ f.data.drop hb.length := by
  simp [Stream.fwrite, Stream.rewind]

theorem finish_header_output (env : Env) (st : State) (sr bps ch : Nat) (h : Opened st)
    (h44 : 44 ≤ (finished_output st).length) :
    finished_output (finish_header env st sr bps ch)
      = (wavedump_header_fill st.wave.data_size (u32 (finished_output st).length)
            (u32 sr) (u16 bps) (u16 ch)).bytes
          ++ (finished_output st).drop 44 := by
  cases hm : st.wave.ismem
  · obtain ⟨hf, hp⟩ := h.disk_file hm
    have e : finish_header env st sr bps ch
        = ⟨st.wave, st.disk.rewind.fwrite
            (wavedump_header_fill st.wave.data_size (u32 st.disk.data.length)
              (u32 sr) (u16 bps) (u16 ch)).bytes, st.stdout⟩ := by
      simp only [finish_header, finish_file_size, hm, hf, hp]
      rfl
    have e1 : finished_output st = st.disk.data := by simp [finished_output, hm]
    rw [e1, e]
    simp only [finished_output, hm]
    rw [rewind_fwrite_data, WAVEHEADER_bytes_length]
    rfl
  · simp only [finished_output, hm, if_true, image_length] at h44 ⊢
    simp only [finish_header, finish_file_size, hm, if_true, image_length, u32_of_lt h.len_lt]
    exact image_memcpy_front _ _ _ (by rw [WAVEHEADER_bytes_length]; exact h44)

theorem wavedump_finish_of_opened (env : Env) (st : State) (sr bps ch : Nat) (h : Opened st) :
    wavedump_finish env st sr bps ch
      = { finish_header env (finish_loop (finish_pad st)) sr bps ch with
          wave := { (finish_header env (finish_loop (finish_pad st)) sr bps ch).wave with
                    file := none } } := by
  simp [wavedump_finish, h.isSome]

theorem finish_header_fields (env : Env) (st : State) (sr bps ch : Nat) :
    (finish_header env st sr bps ch).wave.data_size = st.wave.data_size
      ∧ (finish_header env st sr bps ch).wave.loop_sample = st.wave.loop_sample
      ∧ (finish_header env st sr bps ch).wave.ismem = st.wave.ismem
      ∧ (finish_header env st sr bps ch).wave.len = st.wave.len
      ∧ (finish_header env st sr bps ch).wave.memsize = st.wave.memsize := by
  simp only [finish_header]
  split
  · exact ⟨rfl, rfl, rfl, rfl, rfl⟩
  · split <;> exact ⟨rfl, rfl, rfl, rfl, rfl⟩

theorem wavedump_write_fields (st : State) (src : List Nat) :
    (wavedump_write st src).wave.data_size = st.wave.data_size
      ∧ (wavedump_write st src).wave.loop_sample = st.wave.loop_sample
      ∧ (wavedump_write st src).wave.ismem = st.wave.ismem
      ∧ (wavedump_write st src).wave.file = st.wave.file := by
  simp only [wavedump_write]
  split
  · exact ⟨rfl, rfl, rfl, rfl⟩
  · split <;> exact ⟨rfl, rfl, rfl, rfl⟩

theorem labl_write_fields (st : State) (point_id : Nat) (label : List Nat) :
    (wavedump_LIST_adtl_labl_write st point_id label).wave.data_size = st.wave.data_size
      ∧ (wavedump_LIST_adtl_labl_write st point_id label).wave.loop_sample
          = st.wave.loop_sample
      ∧ (wavedump_LIST_adtl_labl_write st point_id label).wave.ismem = st.wave.ismem
      ∧ (wavedump_LIST_adtl_labl_write st point_id label).wave.file = st.wave.file := by
  simp [wavedump_LIST_adtl_labl_write, wavedump_write_fields]

theorem finish_tail_emits_fields (st : State) :
    (finish_loop (finish_pad st)).wave.data_size = st.wave.data_size
      ∧ (finish_loop (finish_pad st)).wave.loop_sample = st.wave.loop_sample
      ∧ (finish_loop (finish_pad st)).wave.ismem = st.wave.ismem := by
  have hp : (finish_pad st).wave.data_size = st.wave.data_size
      ∧ (finish_pad st).wave.loop_sample = st.wave.loop_sample
      ∧ (finish_pad st).wave.ismem = st.wave.ismem := by
    simp only [finish_pad]
    split
    · simp [wavedump_write_fields]
    · exact ⟨rfl, rfl, rfl⟩
  have hl : ∀ s : State, (finish_loop s).wave.data_size = s.wave.data_size
      ∧ (finish_loop s).wave.loop_sample = s.wave.loop_sample
      ∧ (finish_loop s).wave.ismem = s.wave.ismem := by
    intro s
    simp only [finish_loop]
    split
    · simp [labl_write_fields, wavedump_write_fields]
    · exact ⟨rfl, rfl, rfl⟩
  rw [(hl _).1, (hl _).2.1, (hl _).2.2]
  exact hp

/-- What `wavedump_finish` leaves of an open session: the header over the
first 44 bytes, then what was there, then the trailer. -/
theorem wavedump_finish_output (env : Env) (st : State) (sr bps ch : Nat) (h : Opened st)
    (h44 : 44 ≤ (finished_output st).length)
    (hfit : st.wave.ismem = true →
      st.wave.len + (trailer st.wave.data_size st.wave.loop_sample).length < 4294967296) :
    finished_output (wavedump_finish env st sr bps ch)
      = (wavedump_header_fill st.wave.data_size
            (u32 ((finished_output st).length
              + (trailer st.wave.data_size st.wave.loop_sample).length))
            (u32 sr) (u16 bps) (u16 ch)).bytes
          ++ (finished_output st).drop 44
          ++ trailer st.wave.data_size st.wave.loop_sample := by
  have ht := finish_tail_emits st h hfit
  have hh := finish_header_output env (finish_loop (finish_pad st)) sr bps ch ht.opened
    (by rw [ht.out, List.length_append]; omega)
  have e : finished_output (wavedump_finish env st sr bps ch)
      = finished_output (finish_header env (finish_loop (finish_pad st)) sr bps ch) := by
    rw [wavedump_finish_of_opened env st sr bps ch h]
    rfl
  rw [e, hh, ht.out, ht.data_size, List.length_append, List.drop_append_of_le_length h44,
    List.append_assoc]

/-! ## Sessions -/

theorem wavedump_open_mem (env : Env) (st0 : State) (hm : env.malloc_ok = true) :
    wavedump_open env st0 "-"
      = (true, { st0 with wave :=
          { file := some FILE.stdout, data_size := 0, loop_sample := 0, ismem := true,
            mem := memset env.heap 0 sizeof_WAVEHEADER, memsize := 8 * 1024 * 1024,
            len := sizeof_WAVEHEADER } }) := by
  simp [wavedump_open, hm]

theorem wavedump_open_disk (env : Env) (st0 : State) (fn : String) (hfn : fn ≠ "-")
    (hf : env.fopen_ok = true) :
    wavedump_open env st0 fn
      = (true, { st0 with
          wave := { st0.wave with file := some FILE.disk, data_size := 0, loop_sample := 0,
                                  ismem := false, len := 0 },
          disk := Stream.fwrite ⟨[], 0⟩ (store32 0 ++ (List.range 40).map env.stack) }) := by
  simp [wavedump_open, hfn, hf]

theorem wavedump_open_true (env : Env) (st0 : State) (fn : String)
    (h : (wavedump_open env st0 fn).1 = true) :
    (fn = "-" ∧ env.malloc_ok = true) ∨ (fn ≠ "-" ∧ env.fopen_ok = true) := by
  by_cases hfn : fn = "-"
  · left
    refine ⟨hfn, ?_⟩
    cases hm : env.malloc_ok
    · simp [wavedump_open, hfn, hm] at h
    · rfl
  · right
    refine ⟨hfn, ?_⟩
    cases hf : env.fopen_ok
    · simp [wavedump_open, hfn, hf] at h
    · rfl

/-- A successful `wavedump_open` leaves an open session whose container so far
is the 44-byte placeholder. -/
theorem wavedump_open_spec (env : Env) (st0 : State) (fn : String)
    (h : (wavedump_open env st0 fn).1 = true) :
    wavedump_open env st0 fn = (true, (wavedump_open env st0 fn).2)
      ∧ Opened (wavedump_open env st0 fn).2
      ∧ (finished_output (wavedump_open env st0 fn).2).length = 44
      ∧ (wavedump_open env st0 fn).2.wave.data_size = 0
      ∧ (wavedump_open env st0 fn).2.wave.loop_sample = 0
      ∧ ((wavedump_open env st0 fn).2.wave.ismem = true ↔ fn = "-")
      ∧ ((wavedump_open env st0 fn).2.wave.ismem = true →
          (wavedump_open env st0 fn).2.wave.len = 44)
      ∧ (wavedump_open env st0 fn).2.stdout = st0.stdout := by
  rcases wavedump_open_true env st0 fn h with ⟨rfl, hm⟩ | ⟨hfn, hf⟩
  · rw [wavedump_open_mem env st0 hm]
    refine ⟨rfl, ⟨fun _ => rfl, fun h1 => by simp at h1, ?_⟩, ?_, rfl, rfl, ?_,
      fun _ => rfl, rfl⟩
    · show 44 < 4294967296
      decide
    · simp [finished_output, image_length, sizeof_WAVEHEADER]
    · simp
  · rw [wavedump_open_disk env st0 fn hfn hf]
    refine ⟨rfl, ⟨fun h1 => by simp at h1, fun _ => ⟨rfl, ?_⟩, ?_⟩, ?_, rfl, rfl, ?_,
      fun h1 => by simp at h1, rfl⟩
    · simp [Stream.fwrite, store32]
    · show 0 < 4294967296
      decide
    · simp [finished_output, Stream.fwrite, store32]
    · simp [hfn]

theorem wavedump_append_emits (st : State) (buf : List Nat) (h : Opened st)
    (hfit : st.wave.ismem = true → st.wave.len + buf.length < 4294967296) :
    Opened (wavedump_append st buf)
      ∧ finished_output (wavedump_append st buf) = finished_output st ++ buf
      ∧ (wavedump_append st buf).wave.data_size = u32 (st.wave.data_size + buf.length)
      ∧ (wavedump_append st buf).wave.loop_sample = st.wave.loop_sample
      ∧ (wavedump_append st buf).wave.ismem = st.wave.ismem
      ∧ (st.wave.ismem = true → (wavedump_append st buf).wave.len = st.wave.len + buf.length)
      ∧ (wavedump_append st buf).stdout = st.stdout := by
  have e : wavedump_append st buf
      = wavedump_write ⟨{ st.wave with data_size := u32 (st.wave.data_size + buf.length) },
          st.disk, st.stdout⟩ buf := by
    simp [wavedump_append, h.isSome]
  have ho : Opened (⟨{ st.wave with data_size := u32 (st.wave.data_size + buf.length) },
      st.disk, st.stdout⟩ : State) := ⟨h.mem_file, h.disk_file, h.len_lt⟩
  have hw := wavedump_write_emits _ buf ho hfit
  rw [e]
  exact ⟨hw.opened, hw.out, hw.data_size, hw.loop_sample, hw.ismem, hw.len, hw.stdout⟩

theorem wavedump_loop_set_opened (st : State) (s : Nat) (h : Opened st) :
    wavedump_loop_set st s
      = some ⟨{ st.wave with loop_sample := u32 s }, st.disk, st.stdout⟩ := by
  simp [wavedump_loop_set, h.isSome]

/-- The calls of an open session all return; they put the appended bytes
behind the container so far, count them modulo `2^32`, and keep the last loop
sample. -/
theorem run_spec (calls : List Call) :
    ∀ st : State, Opened st → st.wave.data_size < 4294967296 →
      (st.wave.ismem = true → st.wave.len + (appended calls).length < 4294967296) →
      ∃ st1, run st calls = some st1 ∧ Opened st1
        ∧ finished_output st1 = finished_output st ++ appended calls
        ∧ st1.wave.data_size = u32 (st.wave.data_size + (appended calls).length)
        ∧ st1.wave.loop_sample = loop_after st.wave.loop_sample calls
        ∧ st1.wave.ismem = st.wave.ismem
        ∧ (st.wave.ismem = true → st1.wave.len = st.wave.len + (appended calls).length)
        ∧ st1.stdout = st.stdout := by
  induction calls with
  | nil =>
    intro st h hd _
    exact ⟨st, rfl, h, by simp [appended], by simp [appended, u32_of_lt hd], rfl, rfl,
      fun _ => by simp [appended], rfl⟩
  | cons c cs ih =>
    intro st h hd hfit
    cases c with
    | append buf =>
      simp only [appended, List.length_append] at hfit ⊢
      obtain ⟨ho, hout, hds, hls, him, hlen, hso⟩ :=
        wavedump_append_emits st buf h (by intro hm; have := hfit hm; omega)
      obtain ⟨st1, hr, ho1, hout1, hds1, hls1, him1, hlen1, hso1⟩ :=
        ih (wavedump_append st buf) ho (by rw [hds]; exact u32_lt _)
          (by intro hm; rw [him] at hm; have := hfit hm; rw [hlen hm]; omega)
      refine ⟨st1, ?_, ho1, ?_, ?_, ?_, ?_, ?_, ?_⟩
      · simp only [run, step, Option.bind]
        exact hr
      · rw [hout1, hout, List.append_assoc]
      · rw [hds1, hds]
        simp only [u32]
        omega
      · rw [hls1, hls]; rfl
      · rw [him1, him]
      · intro hm
        rw [hlen1 (by rw [him]; exact hm), hlen hm, Nat.add_assoc]
      · rw [hso1, hso]
    | loop_set s =>
      simp only [appended] at hfit ⊢
      obtain ⟨st1, hr, ho1, hout1, hds1, hls1, him1, hlen1, hso1⟩ :=
        ih ⟨{ st.wave with loop_sample := u32 s }, st.disk, st.stdout⟩
          ⟨h.mem_file, h.disk_file, h.len_lt⟩ hd hfit
      refine ⟨st1, ?_, ho1, hout1, hds1, hls1, him1, hlen1, hso1⟩
      simp only [run, step, wavedump_loop_set_opened st s h, Option.bind]
      exact hr

theorem container_size_eq (calls : List Call) :
    container_size calls
      = 44 + (appended calls).length + (appended calls).length % 2
          + if loop_after 0 calls ≠ 0 then 71 else 0 := by
  simp only [container_size, trailer_length]
  omega

theorem wavedump_open_other (env : Env) (st0 : State) (fn : String) (hfn : fn ≠ "-") :
    (wavedump_open env st0 fn).2.wave.ismem = false := by
  cases hf : env.fopen_ok <;> simp [wavedump_open, hfn, hf]

/-! ## Copies inside the block -/

theorem write_inside_lt (st : State) (src : List Nat) (hm : st.wave.ismem = true)
    (h : write_inside st src) : st.wave.len + src.length < 4294967296 := by
  have h1 := h hm
  unfold copy_inside at h1
  omega

theorem wavedump_write_mem_len (st : State) (src : List Nat) (hm : st.wave.ismem = true)
    (hlt : st.wave.len + src.length < 4294967296) :
    (wavedump_write st src).wave.len = st.wave.len + src.length
      ∧ (wavedump_write st src).wave.ismem = true := by
  simp [wavedump_write, hm, wavedump_mem, u32_of_lt hlt]

theorem writes_inside_bound (ws : List (List Nat)) :
    ∀ st : State, st.wave.ismem = true → st.wave.len < 4294967296 → writes_inside st ws →
      st.wave.len + (ws.map List.length).sum < 4294967296 := by
  induction ws with
  | nil =>
    intro st _ hl _
    simpa using hl
  | cons src rest ih =>
    intro st hm _ h
    obtain ⟨h1, h2⟩ := h
    have hlt := write_inside_lt st src hm h1
    obtain ⟨e1, e2⟩ := wavedump_write_mem_len st src hm hlt
    have h3 := ih (wavedump_write st src) e2 (by rw [e1]; exact hlt) h2
    rw [e1] at h3
    simp only [List.map_cons, List.sum_cons]
    omega

theorem write_inside_block (st : State) (src : List Nat) (h : write_inside st src) :
    inside_block (wavedump_write st src) := by
  intro hm
  rw [(wavedump_write_fields st src).2.2.1] at hm
  have h1 := h hm
  unfold copy_inside at h1
  have e : wavedump_write st src = { st with wave := wavedump_mem st.wave src } := by
    simp [wavedump_write, hm]
  rw [e]
  show u32 (st.wave.len + src.length) ≤ (wavedump_mem st.wave src).memsize
  rw [u32_of_lt (by omega)]
  exact h1.1

/-- A sequence of writes whose copies stay inside the block leaves the buffer
inside its block. -/
theorem writes_inside_block (ws : List (List Nat)) :
    ∀ st : State, inside_block st → writes_inside st ws →
      inside_block (ws.foldl wavedump_write st) := by
  induction ws with
  | nil => intro st hb _; exact hb
  | cons src rest ih =>
    intro st _ h
    exact ih (wavedump_write st src) (write_inside_block st src h.1) h.2

theorem labl_writes_total :
    ((labl_writes 0 (str_bytes "Loop point")).map List.length).sum = 35 := by
  decide

theorem finish_writes_total (d s : Nat) :
    ((finish_writes d s).map List.length).sum = d % 2 + if s ≠ 0 then 71 else 0 := by
  unfold finish_writes
  simp only [List.map_append, List.sum_append]
  have hp : ((if d % 2 = 1 then [[0]] else ([] : List (List Nat))).map List.length).sum
      = d % 2 := by
    split
    · simp; omega
    · simp; omega
  rw [hp]
  split
  · simp only [List.map_append, List.sum_append, List.map_cons, List.map_nil, List.sum_cons,
      List.sum_nil, CUEHEADER_bytes_length, CUEPOINT_bytes_length, labl_writes_total]
    omega
  · rfl

/-- The buffers of `labl_writes` are the writes of
`wavedump_LIST_adtl_labl_write`. -/
theorem labl_writes_fold (st : State) (point_id : Nat) (label : List Nat) :
    wavedump_LIST_adtl_labl_write st point_id label
      = (labl_writes point_id label).foldl wavedump_write st := rfl

/-- The buffers of `finish_writes` are the writes `wavedump_finish` makes
before it fills the header. -/
theorem finish_writes_fold (st : State) :
    finish_loop (finish_pad st)
      = (finish_writes st.wave.data_size st.wave.loop_sample).foldl wavedump_write st := by
  have hl : ∀ s : State, finish_loop s
      = (if s.wave.loop_sample ≠ 0 then
            [loop_cue.bytes, (loop_point s.wave.loop_sample).bytes]
              ++ labl_writes 0 (str_bytes "Loop point")
          else []).foldl wavedump_write s := by
    intro s
    unfold finish_loop
    split <;> rfl
  unfold finish_writes
  rw [List.foldl_append, hl]
  unfold finish_pad
  split
  · rw [(wavedump_write_fields st [0]).2.1]
    rfl
  · rfl

theorem wavedump_append_mem_fields (st : State) (buf : List Nat)
    (hf : st.wave.file.isSome = true) (hm : st.wave.ismem = true)
    (hlt : st.wave.len + buf.length < 4294967296) :
    (wavedump_append st buf).wave.file.isSome = true
      ∧ (wavedump_append st buf).wave.ismem = true
      ∧ (wavedump_append st buf).wave.len = st.wave.len + buf.length
      ∧ (wavedump_append st buf).wave.data_size = u32 (st.wave.data_size + buf.length)
      ∧ (wavedump_append st buf).wave.loop_sample = st.wave.loop_sample := by
  simp [wavedump_append, wavedump_write, wavedump_mem, hf, hm, u32_of_lt hlt]

theorem loop_set_getD (st : State) (s : Nat) (hf : st.wave.file.isSome = true) :
    (wavedump_loop_set st s).getD st
      = ⟨{ st.wave with loop_sample := u32 s }, st.disk, st.stdout⟩ := by
  simp [wavedump_loop_set, hf]

/-- A memory-backend session that keeps its copies inside the block has a
container shorter than `2^32` bytes: the length never passes the capacity,
which is a `uint32`. -/
theorem run_inside_bound (calls : List Call) :
    ∀ st : State, st.wave.file.isSome = true → st.wave.ismem = true →
      st.wave.len < 4294967296 → run_inside st calls →
      st.wave.len + (appended calls).length
          + (st.wave.data_size + (appended calls).length) % 2
          + (if loop_after st.wave.loop_sample calls ≠ 0 then 71 else 0) < 4294967296 := by
  induction calls with
  | nil =>
    intro st _ hm hl h
    have h1 := writes_inside_bound _ st hm hl h
    rw [finish_writes_total] at h1
    simpa [appended, loop_after, Nat.add_assoc] using h1
  | cons c cs ih =>
    intro st hf hm hl h
    cases c with
    | append buf =>
      obtain ⟨h1, h2⟩ := h
      have hlt := write_inside_lt st buf hm h1
      obtain ⟨f1, f2, f3, f4, f5⟩ := wavedump_append_mem_fields st buf hf hm hlt
      have h3 := ih (wavedump_append st buf) f1 f2 (by rw [f3]; exact hlt) h2
      rw [f3, f4, f5] at h3
      simp only [appended, loop_after, List.length_append]
      have hp : (u32 (st.wave.data_size + buf.length) + (appended cs).length) % 2
          = (st.wave.data_size + (buf.length + (appended cs).length)) % 2 := by
        unfold u32
        omega
      rw [hp] at h3
      omega
    | loop_set s =>
      have h2 : run_inside ((wavedump_loop_set st s).getD st) cs := h
      rw [loop_set_getD st s hf] at h2
      exact ih ⟨{ st.wave with loop_sample := u32 s }, st.disk, st.stdout⟩ hf hm hl h2

theorem writes_inside_of_file (ws : List (List Nat)) :
    ∀ st : State, st.wave.ismem = false → writes_inside st ws := by
  induction ws with
  | nil => intro _ _; trivial
  | cons src rest ih =>
    intro st hm
    refine ⟨fun h => ?_, ih _ ?_⟩
    · rw [hm] at h
      cases h
    · rw [(wavedump_write_fields st src).2.2.1]
      exact hm

theorem wavedump_append_ismem (st : State) (buf : List Nat) :
    (wavedump_append st buf).wave.ismem = st.wave.ismem := by
  unfold wavedump_append
  split
  · rw [(wavedump_write_fields _ buf).2.2.1]
  · rfl

theorem loop_set_getD_ismem (st : State) (s : Nat) :
    ((wavedump_loop_set st s).getD st).wave.ismem = st.wave.ismem := by
  unfold wavedump_loop_set
  split <;> rfl

theorem run_inside_of_file (calls : List Call) :
    ∀ st : State, st.wave.ismem = false → run_inside st calls := by
  induction calls with
  | nil => intro st hm; exact writes_inside_of_file _ st hm
  | cons c cs ih =>
    intro st hm
    cases c with
    | append buf =>
      refine ⟨fun h => ?_, ih _ ?_⟩
      · rw [hm] at h
        cases h
      · rw [wavedump_append_ismem]
        exact hm
    | loop_set s =>
      exact ih _ (by rw [loop_set_getD_ismem]; exact hm)

theorem wavedump_append_block (st : State) (buf : List Nat) (hb : inside_block st)
    (h : write_inside st buf) : inside_block (wavedump_append st buf) := by
  unfold wavedump_append
  split
  · exact write_inside_block _ buf h
  · exact hb

theorem wavedump_finish_block (env : Env) (st : State) (sr bps ch : Nat)
    (hb : inside_block st)
    (h : writes_inside st (finish_writes st.wave.data_size st.wave.loop_sample)) :
    inside_block (wavedump_finish env st sr bps ch) := by
  have h1 := writes_inside_block _ st hb h
  rw [← finish_writes_fold] at h1
  obtain ⟨_, _, f3, f4, f5⟩ := finish_header_fields env (finish_loop (finish_pad st)) sr bps ch
  unfold wavedump_finish
  split
  · intro hm
    show (finish_header env (finish_loop (finish_pad st)) sr bps ch).wave.len
      ≤ (finish_header env (finish_loop (finish_pad st)) sr bps ch).wave.memsize
    rw [f4, f5]
    exact h1 (by rw [← f3]; exact hm)
  · exact hb

/-- A session that keeps every copy inside the block runs and finishes with
the buffer inside its block, whatever state it starts from inside its block. -/
theorem run_inside_block (env : Env) (sr bps ch : Nat) (calls : List Call) :
    ∀ st : State, st.wave.file.isSome = true → inside_block st → run_inside st calls →
      ∃ st1, run st calls = some st1
        ∧ inside_block (wavedump_finish env st1 sr bps ch) := by
  induction calls with
  | nil =>
    intro st _ hb h
    exact ⟨st, rfl, wavedump_finish_block env st sr bps ch hb h⟩
  | cons c cs ih =>
    intro st hf hb h
    cases c with
    | append buf =>
      obtain ⟨h1, h2⟩ := h
      have hf1 : (wavedump_append st buf).wave.file.isSome = true := by
        simp only [wavedump_append, hf, if_true]
        rw [(wavedump_write_fields _ buf).2.2.2]
        exact hf
      obtain ⟨st1, hr, hfin⟩ := ih (wavedump_append st buf) hf1
        (wavedump_append_block st buf hb h1) h2
      exact ⟨st1, by simp only [run, step, Option.bind]; exact hr, hfin⟩
    | loop_set s =>
      have h2 : run_inside ((wavedump_loop_set st s).getD st) cs := h
      rw [loop_set_getD st s hf] at h2
      obtain ⟨st1, hr, hfin⟩ := ih ⟨{ st.wave with loop_sample := u32 s }, st.disk, st.stdout⟩
        hf hb h2
      refine ⟨st1, ?_, hfin⟩
      have e : wavedump_loop_set st s
          = some ⟨{ st.wave with loop_sample := u32 s }, st.disk, st.stdout⟩ := by
        simp [wavedump_loop_set, hf]
      simp only [run, step, e, Option.bind]
      exact hr

/-- The file backend makes no copy: every session on it fits. -/
theorem mem_fits_of_ne (env : Env) (st0 : State) (fn : String) (calls : List Call)
    (h : fn ≠ "-") : mem_fits env st0 fn calls :=
  run_inside_of_file calls _ (wavedump_open_other env st0 fn h)

/-- A memory-backend session that keeps every copy inside the block has a
container shorter than `2^32` bytes. -/
theorem mem_fits_container (env : Env) (st0 : State) (fn : String) (calls : List Call)
    (hopen : (wavedump_open env st0 fn).1 = true) (hfit : mem_fits env st0 fn calls)
    (hfn : fn = "-") : container_size calls < 4294967296 := by
  subst hfn
  have hm : env.malloc_ok = true := by
    rcases wavedump_open_true env st0 "-" hopen with ⟨_, h⟩ | ⟨h, _⟩
    · exact h
    · exact absurd rfl h
  unfold mem_fits at hfit
  rw [wavedump_open_mem env st0 hm] at hfit
  have h := run_inside_bound calls
    ({ st0 with wave :=
        { file := some FILE.stdout, data_size := 0, loop_sample := 0, ismem := true,
          mem := memset env.heap 0 sizeof_WAVEHEADER, memsize := 8 * 1024 * 1024,
          len := sizeof_WAVEHEADER } } : State)
    rfl rfl (by show 44 < 4294967296; decide) hfit
  rw [container_size_eq]
  simpa [sizeof_WAVEHEADER] using h

/-- A session that keeps every copy inside the block returns, and the buffer
it leaves lies inside its block. -/
theorem session_inside_block (env : Env) (st0 : State) (fn : String) (calls : List Call)
    (sr bps ch : Nat) (hopen : (wavedump_open env st0 fn).1 = true)
    (hfit : mem_fits env st0 fn calls) :
    ∃ st, session env st0 fn calls sr bps ch = some st ∧ inside_block st := by
  obtain ⟨e1, ho1, _⟩ := wavedump_open_spec env st0 fn hopen
  have hb : inside_block (wavedump_open env st0 fn).2 := by
    rcases wavedump_open_true env st0 fn hopen with ⟨rfl, hm⟩ | ⟨hfn, _⟩
    · rw [wavedump_open_mem env st0 hm]
      intro _
      show 44 ≤ 8388608
      decide
    · intro h
      rw [wavedump_open_other env st0 fn hfn] at h
      cases h
  obtain ⟨st1, hr, hfin⟩ := run_inside_block env sr bps ch calls _ ho1.isSome hb hfit
  refine ⟨wavedump_finish env st1 sr bps ch, ?_, hfin⟩
  rw [session, e1]
  simp only [hr, Option.map]

/-- Layout of the container a session assembles: the filled header, the
appended bytes, the trailer. The memory backend is covered where every copy
stays inside the block; the file backend needs no condition. -/
theorem session_layout (env : Env) (st0 : State) (fn : String) (calls : List Call)
    (sr bps ch : Nat) (hopen : (wavedump_open env st0 fn).1 = true)
    (hfit : mem_fits env st0 fn calls) :
    ∃ st, session env st0 fn calls sr bps ch = some st
      ∧ finished_output st
          = (wavedump_header_fill (u32 (appended calls).length) (u32 (container_size calls))
                (u32 sr) (u16 bps) (u16 ch)).bytes
              ++ appended calls
              ++ trailer (appended calls).length (loop_after 0 calls)
      ∧ st.wave.data_size = u32 (appended calls).length
      ∧ st.wave.loop_sample = loop_after 0 calls
      ∧ st.wave.file = none
      ∧ (st.wave.ismem = true ↔ fn = "-") := by
  obtain ⟨e1, ho1, hl1, hd1, hs1, hm1, hlen1, _⟩ := wavedump_open_spec env st0 fn hopen
  have hsize : fn = "-" → container_size calls < 4294967296 :=
    mem_fits_container env st0 fn calls hopen hfit
  generalize (wavedump_open env st0 fn).2 = st1 at e1 ho1 hl1 hd1 hs1 hm1 hlen1
  have hfit1 : st1.wave.ismem = true → container_size calls < 4294967296 :=
    fun hm => hsize (hm1.mp hm)
  have hcs := container_size_eq calls
  obtain ⟨st2, hr, ho2, hout2, hd2, hs2, hm2, hlen2, _⟩ :=
    run_spec calls st1 ho1 (by rw [hd1]; decide)
      (by intro hm; have := hfit1 hm; rw [hlen1 hm]; omega)
  rw [hd1, Nat.zero_add] at hd2
  rw [hs1] at hs2
  have htr : trailer st2.wave.data_size st2.wave.loop_sample
      = trailer (appended calls).length (loop_after 0 calls) := by
    rw [hd2, hs2]
    simp only [trailer, pad_bytes_u32]
  have hlen : (finished_output st2).length = 44 + (appended calls).length := by
    rw [hout2, List.length_append, hl1]
  have hfin := wavedump_finish_output env st2 sr bps ch ho2 (by omega)
    (by intro hm
        rw [hm2] at hm
        have := hfit1 hm
        rw [hlen2 hm, hlen1 hm, htr]
        simp only [container_size] at this
        exact this)
  refine ⟨wavedump_finish env st2 sr bps ch, ?_, ?_, ?_, ?_, ?_, ?_⟩
  · simp only [session, e1, hr, Option.map]
  · rw [hfin, htr, hlen, hd2, hout2, List.drop_left' hl1]
    rfl
  · rw [wavedump_finish_of_opened env st2 sr bps ch ho2]
    show (finish_header env (finish_loop (finish_pad st2)) sr bps ch).wave.data_size = _
    rw [(finish_header_fields env _ sr bps ch).1, (finish_tail_emits_fields st2).1, hd2]
  · rw [wavedump_finish_of_opened env st2 sr bps ch ho2]
    show (finish_header env (finish_loop (finish_pad st2)) sr bps ch).wave.loop_sample = _
    rw [(finish_header_fields env _ sr bps ch).2.1, (finish_tail_emits_fields st2).2.1, hs2]
  · rw [wavedump_finish_of_opened env st2 sr bps ch ho2]
  · rw [wavedump_finish_of_opened env st2 sr bps ch ho2]
    show (finish_header env (finish_loop (finish_pad st2)) sr bps ch).wave.ismem = true ↔ _
    rw [(finish_header_fields env _ sr bps ch).2.2.1, (finish_tail_emits_fields st2).2.2, hm2]
    exact hm1

/-! ## Reading fields back -/

theorem u16_lt (x : Nat) : u16 x < 65536 := Nat.mod_lt _ (by decide)

theorem u16_of_lt {x : Nat} (h : x < 65536) : u16 x = x := Nat.mod_eq_of_lt h

theorem load32_value (x : Nat) (h : x < 4294967296) :
    x % 256 + 256 * (x / 256 % 256) + 65536 * (x / 65536 % 256)
      + 16777216 * (x / 16777216 % 256) = x := by omega

theorem load16_value (x : Nat) (h : x < 65536) : x % 256 + 256 * (x / 256 % 256) = x := by
  omega

theorem load32_store32 (x : Nat) (rest : List Nat) (h : x < 4294967296) :
    load32 (store32 x ++ rest) 0 = x := load32_value x h

theorem load32_header_riff_size (h : WAVEHEADER) (rest : List Nat)
    (hlt : h.cRIFF.Size < 4294967296) : load32 (h.bytes ++ rest) 4 = h.cRIFF.Size :=
  load32_value _ hlt

theorem load32_header_data_size (h : WAVEHEADER) (rest : List Nat)
    (hlt : h.cdata.Size < 4294967296) : load32 (h.bytes ++ rest) 40 = h.cdata.Size :=
  load32_value _ hlt

theorem getD_append_right_add (xs ys : List Nat) (k : Nat) :
    (xs ++ ys).getD (xs.length + k) 0 = ys.getD k 0 := by
  simp [List.getD_eq_getElem?_getD, List.getElem?_append_right]

theorem load32_append_right (xs ys : List Nat) (k : Nat) :
    load32 (xs ++ ys) (xs.length + k) = load32 ys k := by
  simp only [load32, Nat.add_assoc, getD_append_right_add]

theorem header_fill_data_size (d fs sr bps ch : Nat) :
    (wavedump_header_fill d fs sr bps ch).cdata.Size = u32 d := rfl

theorem nBlockAlign_def (d fs sr bps ch : Nat) :
    (wavedump_header_fill d fs sr bps ch).Format.nBlockAlign
      = int_to_u16 (LE16 (Int.tdiv (wrap_int ((ch : Int) * (bps : Int))) 8)) := rfl

theorem int_to_u16_lt (x : Int) : int_to_u16 x < 65536 := by
  unfold int_to_u16
  omega

theorem LE16_eq {α : Type} (x : α) : LE16 x = x := rfl

theorem LE32_eq {α : Type} (x : α) : LE32 x = x := rfl

theorem wrap_int_of_nat (n : Nat) (h : n < 2147483648) : wrap_int (n : Int) = (n : Int) := by
  unfold wrap_int
  omega

theorem int_to_u16_of_nat (n : Nat) : int_to_u16 (n : Int) = n % 65536 := by
  unfold int_to_u16
  omega

theorem tdiv_nat_8 (n : Nat) : Int.tdiv (n : Int) 8 = ((n / 8 : Nat) : Int) := by
  rw [Int.tdiv_eq_ediv (Int.ofNat_nonneg n) (by decide)]
  omega

theorem nBlockAlign_value (d fs sr bps ch : Nat) (hp : ch * bps < 2147483648) :
    (wavedump_header_fill d fs sr bps ch).Format.nBlockAlign = ch * bps / 8 % 65536 := by
  rw [nBlockAlign_def, LE16_eq, ← Int.ofNat_mul, wrap_int_of_nat _ hp,
    tdiv_nat_8, int_to_u16_of_nat]

theorem header_fill_avg_def (d fs sr bps ch : Nat) :
    (wavedump_header_fill d fs sr bps ch).Format.nAvgBytesPerSec
      = u32 (LE32 (u32 (LE16 sr) * (wavedump_header_fill d fs sr bps ch).Format.nBlockAlign)) :=
  rfl

theorem header_fill_channels_def (d fs sr bps ch : Nat) :
    (wavedump_header_fill d fs sr bps ch).Format.nChannels = u16 ch := rfl

theorem header_fill_rate_def (d fs sr bps ch : Nat) :
    (wavedump_header_fill d fs sr bps ch).Format.nSamplesPerSec = u32 sr := rfl

theorem header_fill_bits_def (d fs sr bps ch : Nat) :
    (wavedump_header_fill d fs sr bps ch).Format.wBitsPerSample = u16 bps := rfl

theorem load16_header_channels (h : WAVEHEADER) (hlt : h.Format.nChannels < 65536) :
    load16 h.bytes 22 = h.Format.nChannels := load16_value _ hlt

theorem load32_header_rate (h : WAVEHEADER) (hlt : h.Format.nSamplesPerSec < 4294967296) :
    load32 h.bytes 24 = h.Format.nSamplesPerSec := load32_value _ hlt

theorem load32_header_avg_bytes (h : WAVEHEADER)
    (hlt : h.Format.nAvgBytesPerSec < 4294967296) :
    load32 h.bytes 28 = h.Format.nAvgBytesPerSec := load32_value _ hlt

theorem load16_header_block_align (h : WAVEHEADER) (hlt : h.Format.nBlockAlign < 65536) :
    load16 h.bytes 32 = h.Format.nBlockAlign := load16_value _ hlt

theorem load16_header_bits (h : WAVEHEADER) (hlt : h.Format.wBitsPerSample < 65536) :
    load16 h.bytes 34 = h.Format.wBitsPerSample := load16_value _ hlt

theorem load16_block_align (d fs sr bps ch : Nat) :
    load16 (wavedump_header_fill d fs sr bps ch).bytes 32
      = (wavedump_header_fill d fs sr bps ch).Format.nBlockAlign := by
  apply load16_header_block_align
  rw [nBlockAlign_def]
  exact int_to_u16_lt _

theorem load32_avg_bytes (d fs sr bps ch : Nat) :
    load32 (wavedump_header_fill d fs sr bps ch).bytes 28
      = u32 (u32 sr * (wavedump_header_fill d fs sr bps ch).Format.nBlockAlign) := by
  rw [load32_header_avg_bytes _ (by rw [header_fill_avg_def]; exact u32_lt _),
    header_fill_avg_def, LE32_eq, LE16_eq]

/-! ## The header fields (C4, C5, C6) -/

/-- C4: the header read back as little-endian fields gives the channel count,
the sample rate and the bits per sample that `wavedump_header_fill` was
given, for every `uint32` sample rate and `uint16` bit depth and channel count. -/
theorem header_fill_format_round_trip
    (data_size file_size sample_rate bits_per_sample channels : Nat)
    (hs : sample_rate < 4294967296) (hb : bits_per_sample < 65536) (hc : channels < 65536) :
    load16 (wavedump_header_fill data_size file_size sample_rate bits_per_sample
        channels).bytes 22 = channels
      ∧ load32 (wavedump_header_fill data_size file_size sample_rate bits_per_sample
          channels).bytes 24 = sample_rate
      ∧ load16 (wavedump_header_fill data_size file_size sample_rate bits_per_sample
          channels).bytes 34 = bits_per_sample := by
  refine ⟨?_, ?_, ?_⟩
  · rw [load16_header_channels _ (by rw [header_fill_channels_def]; exact u16_lt _),
      header_fill_channels_def, u16_of_lt hc]
  · rw [load32_header_rate _ (by rw [header_fill_rate_def]; exact u32_lt _),
      header_fill_rate_def, u32_of_lt hs]
  · rw [load16_header_bits _ (by rw [header_fill_bits_def]; exact u16_lt _),
      header_fill_bits_def, u16_of_lt hb]

/-- C4, at CD-quality stereo. -/
theorem header_fill_format_round_trip_witness :
    (44100 < 4294967296 ∧ 16 < 65536 ∧ 2 < 65536)
      ∧ load16 (wavedump_header_fill 3 48 44100 16 2).bytes 22 = 2
      ∧ load32 (wavedump_header_fill 3 48 44100 16 2).bytes 24 = 44100
      ∧ load16 (wavedump_header_fill 3 48 44100 16 2).bytes 34 = 16 :=
  ⟨by decide,
    header_fill_format_round_trip 3 48 44100 16 2 (by decide) (by decide) (by decide)⟩

/-- C5, refuted as stated: with 32768 channels of 16 bits the quotient
`channels * bits_per_sample / 8` is 65536, and the `uint16` field
`nBlockAlign` holds 0. -/
theorem block_align_counterexample :
    load16 (wavedump_header_fill 0 44 44100 16 32768).bytes 32 = 0
      ∧ load16 (wavedump_header_fill 0 44 44100 16 32768).bytes 32 ≠ 32768 * 16 / 8 := by
  have h0 : load16 (wavedump_header_fill 0 44 44100 16 32768).bytes 32 = 0 := by
    rw [load16_block_align, nBlockAlign_value 0 44 44100 16 32768 (by decide)]
  refine ⟨h0, ?_⟩
  rw [h0]
  decide

/-- C5, amended: `nBlockAlign` holds `channels * bits_per_sample / 8` reduced
modulo `2^16`, which is the quotient itself whenever that is below 65536;
this for every product that the `int` multiplication can hold. -/
theorem header_fill_block_align
    (data_size file_size sample_rate bits_per_sample channels : Nat)
    (hp : channels * bits_per_sample < 2147483648) :
    load16 (wavedump_header_fill data_size file_size sample_rate bits_per_sample
        channels).bytes 32 = channels * bits_per_sample / 8 % 65536
      ∧ (channels * bits_per_sample / 8 < 65536 →
          load16 (wavedump_header_fill data_size file_size sample_rate bits_per_sample
            channels).bytes 32 = channels * bits_per_sample / 8) := by
  have e : load16 (wavedump_header_fill data_size file_size sample_rate bits_per_sample
      channels).bytes 32 = channels * bits_per_sample / 8 % 65536 := by
    rw [load16_block_align, nBlockAlign_value _ _ _ _ _ hp]
  exact ⟨e, fun hlt => by rw [e, Nat.mod_eq_of_lt hlt]⟩

/-- C5 amended, at stereo 16-bit. -/
theorem header_fill_block_align_witness :
    2 * 16 < 2147483648
      ∧ load16 (wavedump_header_fill 3 48 44100 16 2).bytes 32 = 2 * 16 / 8 % 65536
      ∧ (2 * 16 / 8 < 65536 →
          load16 (wavedump_header_fill 3 48 44100 16 2).bytes 32 = 2 * 16 / 8) :=
  ⟨by decide, header_fill_block_align 3 48 44100 16 2 (by decide)⟩

/-- C6, refuted as stated: at sample rate `2^32 - 1`, stereo 16-bit, the block
alignment stored is 4 and the exact product is 17179869180, while
`nAvgBytesPerSec` holds 4294967292. -/
theorem avg_bytes_counterexample :
    load16 (wavedump_header_fill 0 44 4294967295 16 2).bytes 32 = 4
      ∧ load32 (wavedump_header_fill 0 44 4294967295 16 2).bytes 28 = 4294967292
      ∧ load32 (wavedump_header_fill 0 44 4294967295 16 2).bytes 28
          ≠ 4294967295 * load16 (wavedump_header_fill 0 44 4294967295 16 2).bytes 32 := by
  have ha : load16 (wavedump_header_fill 0 44 4294967295 16 2).bytes 32 = 4 := by
    rw [load16_block_align, nBlockAlign_value 0 44 4294967295 16 2 (by decide)]
  have hb : load32 (wavedump_header_fill 0 44 4294967295 16 2).bytes 28 = 4294967292 := by
    rw [load32_avg_bytes, nBlockAlign_value 0 44 4294967295 16 2 (by decide)]
    decide
  refine ⟨ha, hb, ?_⟩
  rw [ha, hb]
  decide

/-- C6, amended: `nAvgBytesPerSec` holds the product of the sample rate and the
stored block alignment reduced modulo `2^32`, which is the product itself
whenever that is below `2^32`. -/
theorem header_fill_avg_bytes
    (data_size file_size sample_rate bits_per_sample channels : Nat)
    (hs : sample_rate < 4294967296) :
    load32 (wavedump_header_fill data_size file_size sample_rate bits_per_sample
        channels).bytes 28
        = sample_rate * load16 (wavedump_header_fill data_size file_size sample_rate
            bits_per_sample channels).bytes 32 % 4294967296
      ∧ (sample_rate * load16 (wavedump_header_fill data_size file_size sample_rate
            bits_per_sample channels).bytes 32 < 4294967296 →
          load32 (wavedump_header_fill data_size file_size sample_rate bits_per_sample
              channels).bytes 28
            = sample_rate * load16 (wavedump_header_fill data_size file_size sample_rate
                bits_per_sample channels).bytes 32) := by
  rw [load16_block_align, load32_avg_bytes, u32_of_lt hs]
  exact ⟨rfl, fun hlt => u32_of_lt hlt⟩

/-- C6 amended, at CD-quality stereo. -/
theorem header_fill_avg_bytes_witness :
    44100 < 4294967296
      ∧ load32 (wavedump_header_fill 3 48 44100 16 2).bytes 28
          = 44100 * load16 (wavedump_header_fill 3 48 44100 16 2).bytes 32 % 4294967296
      ∧ (44100 * load16 (wavedump_header_fill 3 48 44100 16 2).bytes 32 < 4294967296 →
          load32 (wavedump_header_fill 3 48 44100 16 2).bytes 28
            = 44100 * load16 (wavedump_header_fill 3 48 44100 16 2).bytes 32) :=
  ⟨by decide, header_fill_avg_bytes 3 48 44100 16 2 (by decide)⟩

/-! ## The size fields of a session (C1, C2) -/

theorem example_open_disk : (wavedump_open example_env example_state "out.wav").1 = true := by
  decide

theorem example_open_mem : (wavedump_open example_env example_state "-").1 = true := by
  decide

theorem session_output_length (calls : List Call) (d fs sr bps ch : Nat) :
    ((wavedump_header_fill d fs sr bps ch).bytes ++ appended calls
        ++ trailer (appended calls).length (loop_after 0 calls)).length
      = container_size calls := by
  simp only [List.length_append, WAVEHEADER_bytes_length, container_size]

/-- The two size fields of the container of a session, on either backend. -/
theorem session_size_fields (env : Env) (st0 : State) (fn : String) (calls : List Call)
    (sr bps ch : Nat) (hopen : (wavedump_open env st0 fn).1 = true)
    (hfit : mem_fits env st0 fn calls) :
    ∃ st, session env st0 fn calls sr bps ch = some st
      ∧ (finished_output st).length = container_size calls
      ∧ load32 (finished_output st) 4 = u32 (u32 (container_size calls) + 4294967296 - 8)
      ∧ load32 (finished_output st) 40 = u32 (appended calls).length := by
  obtain ⟨st, hs, hout, _⟩ := session_layout env st0 fn calls sr bps ch hopen hfit
  refine ⟨st, hs, ?_, ?_, ?_⟩
  · rw [hout, session_output_length]
  · rw [hout, List.append_assoc, load32_header_riff_size _ _ (u32_lt _)]
    rfl
  · rw [hout, List.append_assoc, load32_header_data_size _ _ (u32_lt _),
      header_fill_data_size]
    exact u32_of_lt (u32_lt _)

theorem riff_size_wraps (buf : List Nat) (hb : buf.length = 4294967295) :
    ∃ st, session example_env example_state "out.wav" [Call.append buf] 44100 16 2 = some st
      ∧ (finished_output st).length = 4294967340
      ∧ load32 (finished_output st) 4 = 36 := by
  obtain ⟨st, hs, hlen, h4, _⟩ := session_size_fields example_env example_state "out.wav"
    [Call.append buf] 44100 16 2 example_open_disk (mem_fits_of_ne _ _ _ _ (by decide))
  have hc : container_size [Call.append buf] = 4294967340 := by
    simp [container_size_eq, appended, hb, loop_after]
  rw [hc] at hlen h4
  have h36 : load32 (finished_output st) 4 = 36 := by rw [h4]; decide
  exact ⟨st, hs, hlen, h36⟩

/-- C1, refuted as stated: one append of `2^32 - 1` bytes on the file backend
gives a file of `2^32 + 44` bytes whose RIFF size field holds 36. -/
theorem riff_size_counterexample :
    ∃ st, session example_env example_state "out.wav"
        [Call.append (List.replicate 4294967295 0)] 44100 16 2 = some st
      ∧ (finished_output st).length = 4294967340
      ∧ load32 (finished_output st) 4 = 36
      ∧ load32 (finished_output st) 4 ≠ (finished_output st).length - 8 := by
  obtain ⟨st, hs, hlen, h36⟩ :=
    riff_size_wraps (List.replicate 4294967295 0) (List.length_replicate _ _)
  exact ⟨st, hs, hlen, h36, by rw [h36, hlen]; decide⟩

/-- C1, amended: for every session whose container is shorter than `2^32`
bytes (and, on the memory backend, in which every copy into the buffer stays
inside the block), on either backend and for every sample rate, bit depth and
channel count, the session returns and the little-endian field at offset 4 of
the finished output is the length of the output minus 8. -/
theorem riff_size_field (env : Env) (st0 : State) (fn : String) (calls : List Call)
    (sr bps ch : Nat) (hopen : (wavedump_open env st0 fn).1 = true)
    (hsize : container_size calls < 4294967296) (hfit : mem_fits env st0 fn calls) :
    ∃ st, session env st0 fn calls sr bps ch = some st
      ∧ (finished_output st).length = container_size calls
      ∧ load32 (finished_output st) 4 = (finished_output st).length - 8 := by
  obtain ⟨st, hs, hlen, h4, _⟩ :=
    session_size_fields env st0 fn calls sr bps ch hopen hfit
  refine ⟨st, hs, hlen, ?_⟩
  have h44 : 44 ≤ container_size calls := by
    rw [container_size_eq]
    omega
  rw [h4, hlen, u32_of_lt hsize]
  unfold u32
  omega

/-- C1 amended, at a memory-backend session with three bytes and a loop
sample. -/
theorem riff_size_field_witness :
    (wavedump_open example_env example_state "-").1 = true
      ∧ container_size [Call.append [1, 2, 3], Call.loop_set 5] < 4294967296
      ∧ mem_fits example_env example_state "-" [Call.append [1, 2, 3], Call.loop_set 5]
      ∧ ∃ st, session example_env example_state "-" [Call.append [1, 2, 3], Call.loop_set 5]
            44100 16 2 = some st
          ∧ (finished_output st).length
              = container_size [Call.append [1, 2, 3], Call.loop_set 5]
          ∧ load32 (finished_output st) 4 = (finished_output st).length - 8 :=
  ⟨example_open_mem, by simp [container_size_eq, appended, loop_after, u32], by decide,
    riff_size_field example_env example_state "-" [Call.append [1, 2, 3], Call.loop_set 5]
      44100 16 2 example_open_mem (by simp [container_size_eq, appended, loop_after, u32])
      (by decide)⟩

theorem data_size_wraps (buf : List Nat) (hb : buf.length = 4294967295) :
    ∃ st, session example_env example_state "out.wav"
        [Call.append buf, Call.append [0]] 44100 16 2 = some st
      ∧ load32 (finished_output st) 40 = 0 := by
  obtain ⟨st, hs, _, _, h40⟩ := session_size_fields example_env example_state "out.wav"
    [Call.append buf, Call.append [0]] 44100 16 2 example_open_disk
    (mem_fits_of_ne _ _ _ _ (by decide))
  have hn : (appended [Call.append buf, Call.append [0]]).length = 4294967296 := by
    simp [appended, hb]
  rw [hn] at h40
  exact ⟨st, hs, by rw [h40]; decide⟩

/-- C2, refuted as stated: appends of `2^32 - 1` bytes and of one byte on the
file backend sum to `2^32`, and the `data` size field holds 0. -/
theorem data_size_counterexample :
    ∃ st, session example_env example_state "out.wav"
        [Call.append (List.replicate 4294967295 0), Call.append [0]] 44100 16 2 = some st
      ∧ load32 (finished_output st) 40 = 0
      ∧ load32 (finished_output st) 40
          ≠ (List.replicate 4294967295 0).length + [0].length := by
  obtain ⟨st, hs, h0⟩ :=
    data_size_wraps (List.replicate 4294967295 0) (List.length_replicate _ _)
  refine ⟨st, hs, h0, ?_⟩
  rw [h0, List.length_replicate]
  decide

/-- C2, amended: for every session that appends fewer than `2^32` bytes in
all (and, on the memory backend, in which every copy into the buffer stays
inside the block), the `data` size field at offset 40 of the finished output is the sum
of the lengths appended; the pad byte that follows odd-length data is in the
output and not in the count. -/
theorem data_size_field (env : Env) (st0 : State) (fn : String) (calls : List Call)
    (sr bps ch : Nat) (hopen : (wavedump_open env st0 fn).1 = true)
    (hsum : (appended calls).length < 4294967296) (hfit : mem_fits env st0 fn calls) :
    ∃ st, session env st0 fn calls sr bps ch = some st
      ∧ load32 (finished_output st) 40 = (appended calls).length
      ∧ st.wave.data_size = (appended calls).length
      ∧ (finished_output st).drop 44
          = appended calls ++ pad_bytes (appended calls).length
              ++ loop_bytes (loop_after 0 calls) := by
  obtain ⟨st, hs, hout, hd, _⟩ := session_layout env st0 fn calls sr bps ch hopen hfit
  obtain ⟨st1, hs1, _, _, h40⟩ := session_size_fields env st0 fn calls sr bps ch hopen hfit
  have : st1 = st := Option.some.inj (hs1.symm.trans hs)
  subst this
  refine ⟨st1, hs, ?_, ?_, ?_⟩
  · rw [h40, u32_of_lt hsum]
  · rw [hd, u32_of_lt hsum]
  · rw [hout, List.append_assoc, List.drop_left' (WAVEHEADER_bytes_length _), trailer,
      List.append_assoc]

/-- C2 amended, at a memory-backend session of two appends, three bytes in all. -/
theorem data_size_field_witness :
    (wavedump_open example_env example_state "-").1 = true
      ∧ (appended [Call.append [1, 2], Call.append [3]]).length < 4294967296
      ∧ mem_fits example_env example_state "-" [Call.append [1, 2], Call.append [3]]
      ∧ ∃ st, session example_env example_state "-"
            [Call.append [1, 2], Call.append [3]] 44100 16 2 = some st
          ∧ load32 (finished_output st) 40
              = (appended [Call.append [1, 2], Call.append [3]]).length
          ∧ st.wave.data_size = (appended [Call.append [1, 2], Call.append [3]]).length
          ∧ (finished_output st).drop 44
              = appended [Call.append [1, 2], Call.append [3]]
                  ++ pad_bytes (appended [Call.append [1, 2], Call.append [3]]).length
                  ++ loop_bytes (loop_after 0 [Call.append [1, 2], Call.append [3]]) :=
  ⟨example_open_mem, by simp [appended], by decide,
    data_size_field example_env example_state "-" [Call.append [1, 2], Call.append [3]]
      44100 16 2 example_open_mem (by simp [appended]) (by decide)⟩

/-! ## The memory-backend flush (C3) -/

/-- A buffer shorter than one block makes the quotient 0, and the loop body,
which holds the write of the remainder as well, is never entered. -/
theorem flush_short (mem : Nat → Nat) (wr : Nat → Nat → Nat) (file_size bytes : Nat)
    (out : List Write) (h : file_size < bytes) :
    flush mem wr file_size bytes out = out := by
  have h0 : ¬ (0 < u32 0) := by decide
  simp [flush, Nat.div_eq_of_lt h, flush_loop, h0]

theorem image_add (mem : Nat → Nat) (a b : Nat) :
    image mem (a + b) = image mem a ++ slice mem a b := by
  simp [image, slice, List.range_add, List.map_append]

/-- The allowance of iterations does not matter once it covers the blocks
still to go, whatever the writes return. -/
theorem flush_loop_fuel (mem : Nat → Nat) (wr : Nat → Nat → Nat) (B r q : Nat)
    (hq : B * q < 4294967296) :
    ∀ (j k f1 f2 : Nat) (out : List Write), k + j = q → j ≤ f1 → j ≤ f2 →
      flush_loop mem wr B r (B * q) f1 (B * k) out
        = flush_loop mem wr B r (B * q) f2 (B * k) out := by
  intro j
  induction j with
  | zero =>
    intro k f1 f2 out hk _ _
    have hk0 : k = q := by omega
    subst hk0
    cases f1 <;> cases f2 <;> simp [flush_loop]
  | succ j ih =>
    intro k f1 f2 out hk h1 h2
    obtain ⟨g1, rfl⟩ : ∃ g, f1 = g + 1 := ⟨f1 - 1, by omega⟩
    obtain ⟨g2, rfl⟩ : ∃ g, f2 = g + 1 := ⟨f2 - 1, by omega⟩
    have hi : u32 (B * k + B) = B * (k + 1) := by
      rw [← Nat.mul_succ]
      exact u32_of_lt (Nat.lt_of_le_of_lt (Nat.mul_le_mul_left B (by omega)) hq)
    rw [flush_loop, flush_loop]
    simp only [hi]
    have e1 := ih (k + 1) g1 g2
    split
    · split
      · rfl
      · split
        · split
          · rfl
          · exact e1 _ (by omega) (by omega) (by omega)
        · exact e1 _ (by omega) (by omega) (by omega)
    · rfl

/-- The flush loop when every write is complete: from block `k` on, with `j`
blocks to go, it issues those `j` block writes and, unless `j` is 0, the write
of the remainder behind them. -/
theorem flush_loop_ok (mem : Nat → Nat) (B r q : Nat) (hB : 0 < B)
    (hq : B * q < 4294967296) :
    ∀ (j k f : Nat) (out : List Write), k + j = q → j ≤ f →
      flush_loop mem (fun _ n => n) B r (B * q) f (B * k) out
        = out ++ (List.range j).map (fun t => (⟨B, slice mem (B * (k + t)) B⟩ : Write))
            ++ (if j = 0 then [] else [⟨r, slice mem (B * q) r⟩]) := by
  intro j
  induction j with
  | zero =>
    intro k f out hk _
    have hk0 : k = q := by omega
    subst hk0
    cases f <;> simp [flush_loop]
  | succ j ih =>
    intro k f out hk hf
    obtain ⟨g, rfl⟩ : ∃ g, f = g + 1 := ⟨f - 1, by omega⟩
    have hlt : B * k < B * q := Nat.mul_lt_mul_of_pos_left (by omega) hB
    have hi : u32 (B * k + B) = B * (k + 1) := by
      rw [← Nat.mul_succ]
      exact u32_of_lt (Nat.lt_of_le_of_lt (Nat.mul_le_mul_left B (by omega)) hq)
    rw [flush_loop]
    simp only [hlt, if_true, Nat.min_self, ne_eq, not_true_eq_false, if_false, hi]
    by_cases hj : j = 0
    · subst hj
      have hk1 : k + 1 = q := hk
      rw [if_pos (by rw [hk1]), ih (k + 1) g _ (by omega) (by omega)]
      simp [List.range_succ]
    · have hne : B * (k + 1) ≠ B * q := by
        intro h
        have := Nat.eq_of_mul_eq_mul_left hB h
        omega
      rw [if_neg hne, ih (k + 1) g _ (by omega) (by omega)]
      simp only [hj, if_false, Nat.succ_ne_zero, List.range_succ_eq_map, List.map_cons,
        List.map_map, List.append_assoc, List.singleton_append, Nat.add_zero]
      congr 2
      refine congrArg _ ?_
      apply List.map_congr_left
      intro t _
      simp only [Function.comp, Nat.succ_eq_add_one]
      have e : k + 1 + t = k + (t + 1) := by omega
      rw [e]

/-- The flush when every write is complete: nothing for a buffer shorter than
one block, else `L / B` block writes followed by the write of `L % B` bytes. -/
theorem flush_ok (mem : Nat → Nat) (L B : Nat) (out : List Write) (hB : 0 < B)
    (hL : L < 4294967296) :
    flush mem (fun _ n => n) L B out
      = out ++ (if L / B = 0 then []
          else (List.range (L / B)).map (fun t => (⟨B, slice mem (B * t) B⟩ : Write))
            ++ [⟨L % B, slice mem (B * (L / B)) (L % B)⟩]) := by
  have hq : B * (L / B) < 4294967296 := Nat.lt_of_le_of_lt (Nat.mul_div_le L B) hL
  have h := flush_loop_ok mem B (L % B) (L / B) hB hq (L / B) 0 (L / B + 1) out
    (Nat.zero_add _) (Nat.le_succ _)
  simp only [flush, u32_of_lt hq]
  rw [Nat.mul_zero] at h
  rw [h]
  by_cases h0 : L / B = 0
  · simp [h0]
  · simp [h0, List.append_assoc]

theorem stdout_bytes_append (xs ys : List Write) :
    stdout_bytes (xs ++ ys) = stdout_bytes xs ++ stdout_bytes ys := by
  induction xs with
  | nil => rfl
  | cons x xs ih => simp [stdout_bytes, ih]

theorem stdout_bytes_blocks (mem : Nat → Nat) (B q : Nat) :
    stdout_bytes ((List.range q).map (fun t => (⟨B, slice mem (B * t) B⟩ : Write)))
      = image mem (B * q) := by
  induction q with
  | zero => simp [stdout_bytes, image]
  | succ q ih =>
    rw [List.range_succ, List.map_append, stdout_bytes_append, ih, Nat.mul_succ, image_add]
    simp [stdout_bytes]

/-- With every write complete and at least one whole block in the buffer, the
bytes the flush hands to `stdout` are the first `L` bytes of the buffer. -/
theorem flush_ok_bytes (mem : Nat → Nat) (L B : Nat) (hB : 0 < B) (hL : L < 4294967296)
    (hLB : B ≤ L) :
    stdout_bytes (flush mem (fun _ n => n) L B []) = image mem L := by
  have h0 : L / B ≠ 0 := by
    have := Nat.div_pos hLB hB
    omega
  rw [flush_ok mem L B [] hB hL, if_neg h0, List.nil_append, stdout_bytes_append,
    stdout_bytes_blocks]
  simp only [stdout_bytes, List.append_nil]
  rw [← image_add, Nat.div_add_mod]

/-- C3, the code at a failing input: a memory-backend session that appends
three bytes assembles a container of 48 bytes, one block is 262144 bytes, and
`wavedump_finish` issues no write on `stdout` at all, where the claim has one
final write of `48 mod 262144 = 48` bytes. -/
theorem flush_short_session :
    (session example_env example_state "-" [Call.append [1, 2, 3]] 44100 16 2).map
        (fun st => ((finished_output st).length, st.stdout))
      = some (48, []) := by
  decide

/-! ## The pad byte (C7) -/

theorem pad_wraps (buf : List Nat) (hb : buf.length = 4294967295) :
    ∃ st, session example_env example_state "out.wav"
        [Call.append buf, Call.append [0, 0]] 44100 16 2 = some st
      ∧ load32 (finished_output st) 40 = 1 := by
  obtain ⟨st, hs, _, _, h40⟩ := session_size_fields example_env example_state "out.wav"
    [Call.append buf, Call.append [0, 0]] 44100 16 2 example_open_disk
    (mem_fits_of_ne _ _ _ _ (by decide))
  have hn : (appended [Call.append buf, Call.append [0, 0]]).length = 4294967297 := by
    simp [appended, hb]
  rw [hn] at h40
  exact ⟨st, hs, by rw [h40]; decide⟩

/-- C7, refuted as stated: appends of `2^32 - 1` bytes and of two bytes on the
file backend give the odd count `N = 2^32 + 1`, and the `data` size field
holds 1, not `N`. -/
theorem pad_counterexample :
    ∃ st, session example_env example_state "out.wav"
        [Call.append (List.replicate 4294967295 0), Call.append [0, 0]] 44100 16 2 = some st
      ∧ ((List.replicate 4294967295 0).length + [0, 0].length) % 2 = 1
      ∧ load32 (finished_output st) 40 = 1
      ∧ load32 (finished_output st) 40
          ≠ (List.replicate 4294967295 0).length + [0, 0].length := by
  obtain ⟨st, hs, h1⟩ := pad_wraps (List.replicate 4294967295 0) (List.length_replicate _ _)
  refine ⟨st, hs, ?_, h1, ?_⟩
  · rw [List.length_replicate]
    decide
  · rw [h1, List.length_replicate]
    decide

/-- C7, amended: for every session (on the memory backend: in which every
copy into the buffer stays inside the block) with `N` bytes appended in all,
the finished output
has, behind the 44-byte header, the `N` data bytes, then exactly one zero
byte when `N` is odd and nothing when `N` is even, then the loop chunks if
any; the `data` size field holds `N` modulo `2^32`, so `N` itself below
`2^32`, and never counts the pad byte. -/
theorem odd_data_padded (env : Env) (st0 : State) (fn : String) (calls : List Call)
    (sr bps ch : Nat) (hopen : (wavedump_open env st0 fn).1 = true)
    (hfit : mem_fits env st0 fn calls) :
    ∃ st, session env st0 fn calls sr bps ch = some st
      ∧ load32 (finished_output st) 40 = (appended calls).length % 4294967296
      ∧ ((appended calls).length % 2 = 1 →
          (finished_output st).drop 44
            = appended calls ++ [0] ++ loop_bytes (loop_after 0 calls))
      ∧ ((appended calls).length % 2 = 0 →
          (finished_output st).drop 44 = appended calls ++ loop_bytes (loop_after 0 calls)) := by
  obtain ⟨st, hs, hout, _⟩ := session_layout env st0 fn calls sr bps ch hopen hfit
  obtain ⟨st1, hs1, _, _, h40⟩ := session_size_fields env st0 fn calls sr bps ch hopen hfit
  have : st1 = st := Option.some.inj (hs1.symm.trans hs)
  subst this
  have hd : (finished_output st1).drop 44
      = appended calls ++ pad_bytes (appended calls).length
          ++ loop_bytes (loop_after 0 calls) := by
    rw [hout, List.append_assoc, List.drop_left' (WAVEHEADER_bytes_length _), trailer,
      List.append_assoc]
  refine ⟨st1, hs, h40, ?_, ?_⟩
  · intro hodd
    rw [hd, pad_bytes, if_pos hodd]
  · intro heven
    rw [hd, pad_bytes, if_neg (by omega), List.append_nil]

/-- C7 amended, at a memory-backend session that appends three bytes. -/
theorem odd_data_padded_witness :
    (wavedump_open example_env example_state "-").1 = true
      ∧ mem_fits example_env example_state "-" [Call.append [1, 2, 3]]
      ∧ ∃ st, session example_env example_state "-" [Call.append [1, 2, 3]] 44100 16 2
            = some st
          ∧ load32 (finished_output st) 40
              = (appended [Call.append [1, 2, 3]]).length % 4294967296
          ∧ ((appended [Call.append [1, 2, 3]]).length % 2 = 1 →
              (finished_output st).drop 44
                = appended [Call.append [1, 2, 3]] ++ [0]
                    ++ loop_bytes (loop_after 0 [Call.append [1, 2, 3]]))
          ∧ ((appended [Call.append [1, 2, 3]]).length % 2 = 0 →
              (finished_output st).drop 44
                = appended [Call.append [1, 2, 3]]
                    ++ loop_bytes (loop_after 0 [Call.append [1, 2, 3]])) :=
  ⟨example_open_mem, by decide,
    odd_data_padded example_env example_state "-" [Call.append [1, 2, 3]] 44100 16 2
      example_open_mem (by decide)⟩

/-! ## The loop chunks (C8, C9) -/

theorem loop_after_lt (calls : List Call) :
    ∀ s0, s0 < 4294967296 → loop_after s0 calls < 4294967296 := by
  induction calls with
  | nil => intro s0 h; exact h
  | cons c cs ih =>
    intro s0 h
    cases c with
    | append buf => exact ih s0 h
    | loop_set s => exact ih (u32 s) (u32_lt s)

theorem strlen_of_nul_free (label : List Nat) (h : ∀ b ∈ label, b ≠ 0) :
    strlen label = label.length := by
  unfold strlen
  rw [List.takeWhile_eq_self_iff.mpr (by intro b hb; simpa using h b hb)]

theorem c_string_of_nul_free (label : List Nat) (h : ∀ b ∈ label, b ≠ 0) :
    c_string label = label ++ [0] := by
  unfold c_string
  rw [List.takeWhile_eq_self_iff.mpr (by intro b hb; simpa using h b hb)]

/-- The label chunk spelt out, for a NUL-free label whose sizes fit 32 bits. -/
theorem labl_chunk_explicit (point_id : Nat) (label : List Nat) (hid : point_id < 4294967296)
    (hnul : ∀ b ∈ label, b ≠ 0) (hn : label.length + 17 < 4294967296) :
    labl_chunk point_id label
      = str_bytes "LIST" ++ store32 (4 + 8 + (4 + (label.length + 1))) ++ str_bytes "adtl"
          ++ str_bytes "labl" ++ store32 (4 + (label.length + 1)) ++ store32 point_id
          ++ label ++ [0] := by
  have e1 : u32 (sizeof_uint32 + (strlen label + 1)) = 4 + (label.length + 1) := by
    rw [strlen_of_nul_free label hnul]
    exact u32_of_lt (by show 4 + (label.length + 1) < 4294967296; omega)
  have e2 : u32 (sizeof_uint32 + sizeof_RIFFCHUNK + (4 + (label.length + 1)))
      = 4 + 8 + (4 + (label.length + 1)) :=
    u32_of_lt (by show 4 + 8 + (4 + (label.length + 1)) < 4294967296; omega)
  simp only [labl_chunk, e1, e2, u32_of_lt hid, c_string_of_nul_free label hnul, RIFFCHUNK.bytes,
    List.append_assoc]
  rfl

/-- The loop chunks spelt out: the `cue ` chunk of size 28 with one point,
then the `LIST` chunk of size 27 with the `labl` chunk of size 15. -/
theorem loop_bytes_explicit (s : Nat) (hs : s < 4294967296) (h0 : s ≠ 0) :
    loop_bytes s
      = str_bytes "cue " ++ store32 28 ++ store32 1
          ++ (store32 0 ++ store32 s ++ str_bytes "data" ++ store32 0 ++ store32 0
                ++ store32 s)
          ++ (str_bytes "LIST" ++ store32 27 ++ str_bytes "adtl"
                ++ str_bytes "labl" ++ store32 15 ++ store32 0
                ++ str_bytes "Loop point" ++ [0]) := by
  unfold loop_bytes
  rw [if_pos h0, labl_chunk_explicit 0 (str_bytes "Loop point") (by decide) (by decide)
    (by decide)]
  simp only [loop_point, LE32_eq, u32_of_lt hs, CUEPOINT.bytes, List.append_assoc]
  rfl

/-- What follows the header in the finished output of a session. -/
theorem session_body (env : Env) (st0 : State) (fn : String) (calls : List Call)
    (sr bps ch : Nat) (hopen : (wavedump_open env st0 fn).1 = true)
    (hfit : mem_fits env st0 fn calls) :
    ∃ st, session env st0 fn calls sr bps ch = some st
      ∧ (finished_output st).drop 44
          = appended calls ++ pad_bytes (appended calls).length
              ++ loop_bytes (loop_after 0 calls) := by
  obtain ⟨st, hs, hout, _⟩ := session_layout env st0 fn calls sr bps ch hopen hfit
  refine ⟨st, hs, ?_⟩
  rw [hout, List.append_assoc, List.drop_left' (WAVEHEADER_bytes_length _), trailer,
    List.append_assoc]

/-- C8, refuted as stated: after `wavedump_loop_set` with loop sample 0 the
finished output ends behind the padded data; there is no `cue ` chunk and no
`LIST` chunk. -/
theorem loop_chunks_counterexample :
    (session example_env example_state "out.wav" [Call.append [1, 2, 3], Call.loop_set 0]
        44100 16 2).map (fun st => (finished_output st).drop 44)
      = some [1, 2, 3, 0] := by
  decide

/-- C8, amended: for every session (on the memory backend: in which every
copy into the buffer stays inside the block) the finished output has, behind
the header, the
data and its pad byte, and directly after them: when the loop sample in
force at `wavedump_finish` is a nonzero `s`, one `cue ` chunk (size 28, point
count 1, a point with `dwSampleOffset = s`) followed by one `LIST` chunk
(size 27) holding `adtl` and one `labl` chunk (size 15) with point id 0 and
the text `Loop point` with its terminator, and nothing more; when the loop
sample is 0, never set or set to 0, nothing at all. -/
theorem loop_chunks (env : Env) (st0 : State) (fn : String) (calls : List Call)
    (sr bps ch : Nat) (hopen : (wavedump_open env st0 fn).1 = true)
    (hfit : mem_fits env st0 fn calls) :
    ∃ st, session env st0 fn calls sr bps ch = some st
      ∧ (loop_after 0 calls ≠ 0 →
          (finished_output st).drop 44
            = appended calls ++ pad_bytes (appended calls).length
                ++ (str_bytes "cue " ++ store32 28 ++ store32 1
                      ++ (store32 0 ++ store32 (loop_after 0 calls) ++ str_bytes "data"
                            ++ store32 0 ++ store32 0 ++ store32 (loop_after 0 calls))
                      ++ (str_bytes "LIST" ++ store32 27 ++ str_bytes "adtl"
                            ++ str_bytes "labl" ++ store32 15 ++ store32 0
                            ++ str_bytes "Loop point" ++ [0])))
      ∧ (loop_after 0 calls = 0 →
          (finished_output st).drop 44
            = appended calls ++ pad_bytes (appended calls).length) := by
  obtain ⟨st, hs, hd⟩ := session_body env st0 fn calls sr bps ch hopen hfit
  refine ⟨st, hs, ?_, ?_⟩
  · intro h0
    rw [hd, loop_bytes_explicit _ (loop_after_lt calls 0 (by decide)) h0]
  · intro h0
    rw [hd, h0]
    simp [loop_bytes]

/-- C8 amended, at a memory-backend session with three bytes and loop
sample 5. -/
theorem loop_chunks_witness :
    (wavedump_open example_env example_state "-").1 = true
      ∧ mem_fits example_env example_state "-" [Call.append [1, 2, 3], Call.loop_set 5]
      ∧ ∃ st, session example_env example_state "-" [Call.append [1, 2, 3], Call.loop_set 5]
            44100 16 2 = some st
          ∧ (loop_after 0 [Call.append [1, 2, 3], Call.loop_set 5] ≠ 0 →
              (finished_output st).drop 44
                = appended [Call.append [1, 2, 3], Call.loop_set 5]
                    ++ pad_bytes (appended [Call.append [1, 2, 3], Call.loop_set 5]).length
                    ++ (str_bytes "cue " ++ store32 28 ++ store32 1
                          ++ (store32 0
                                ++ store32 (loop_after 0 [Call.append [1, 2, 3], Call.loop_set 5])
                                ++ str_bytes "data" ++ store32 0 ++ store32 0
                                ++ store32 (loop_after 0 [Call.append [1, 2, 3], Call.loop_set 5]))
                          ++ (str_bytes "LIST" ++ store32 27 ++ str_bytes "adtl"
                                ++ str_bytes "labl" ++ store32 15 ++ store32 0
                                ++ str_bytes "Loop point" ++ [0])))
          ∧ (loop_after 0 [Call.append [1, 2, 3], Call.loop_set 5] = 0 →
              (finished_output st).drop 44
                = appended [Call.append [1, 2, 3], Call.loop_set 5]
                    ++ pad_bytes (appended [Call.append [1, 2, 3], Call.loop_set 5]).length) :=
  ⟨example_open_mem, by decide,
    loop_chunks example_env example_state "-" [Call.append [1, 2, 3], Call.loop_set 5]
      44100 16 2 example_open_mem
      (by decide)⟩

theorem load32_cuepoint (p : CUEPOINT) (rest : List Nat)
    (h1 : p.dwName < 4294967296) (h2 : p.dwPosition < 4294967296)
    (h3 : p.fccChunk < 4294967296) (h4 : p.dwChunkStart < 4294967296)
    (h5 : p.dwBlockStart < 4294967296) (h6 : p.dwSampleOffset < 4294967296) :
    load32 (p.bytes ++ rest) 0 = p.dwName
      ∧ load32 (p.bytes ++ rest) 4 = p.dwPosition
      ∧ load32 (p.bytes ++ rest) 8 = p.fccChunk
      ∧ load32 (p.bytes ++ rest) 12 = p.dwChunkStart
      ∧ load32 (p.bytes ++ rest) 16 = p.dwBlockStart
      ∧ load32 (p.bytes ++ rest) 20 = p.dwSampleOffset :=
  ⟨load32_value _ h1, load32_value _ h2, load32_value _ h3, load32_value _ h4,
    load32_value _ h5, load32_value _ h6⟩

/-- C9, refuted as stated: with loop sample 1 and no data the cue point lies at
offset 56 of the finished output, and its `dwPosition`, four bytes further,
holds 1, not 0. -/
theorem cue_point_counterexample :
    (session example_env example_state "out.wav" [Call.loop_set 1] 44100 16 2).map
        (fun st => load32 (finished_output st) (56 + 4))
      = some 1 := by
  decide

/-- C9, amended: for every session (on the memory backend: in which every
copy into the buffer stays inside the block) whose loop sample at
`wavedump_finish` is a nonzero
`s`, the cue point, which lies behind the header, the padded data and the
12-byte cue header, has `dwName = 0`, `dwPosition = s`, `fccChunk` the tag
`data`, `dwChunkStart = 0`, `dwBlockStart = 0` and `dwSampleOffset = s`. -/
theorem cue_point_fields (env : Env) (st0 : State) (fn : String) (calls : List Call)
    (sr bps ch : Nat) (hopen : (wavedump_open env st0 fn).1 = true)
    (hfit : mem_fits env st0 fn calls) (h0 : loop_after 0 calls ≠ 0) :
    ∃ st, session env st0 fn calls sr bps ch = some st
      ∧ load32 (finished_output st)
          (44 + (appended calls).length + (appended calls).length % 2 + 12 + 0) = 0
      ∧ load32 (finished_output st)
          (44 + (appended calls).length + (appended calls).length % 2 + 12 + 4)
          = loop_after 0 calls
      ∧ load32 (finished_output st)
          (44 + (appended calls).length + (appended calls).length % 2 + 12 + 8)
          = str_u32 "data"
      ∧ load32 (finished_output st)
          (44 + (appended calls).length + (appended calls).length % 2 + 12 + 12) = 0
      ∧ load32 (finished_output st)
          (44 + (appended calls).length + (appended calls).length % 2 + 12 + 16) = 0
      ∧ load32 (finished_output st)
          (44 + (appended calls).length + (appended calls).length % 2 + 12 + 20)
          = loop_after 0 calls := by
  obtain ⟨st, hs, hout, _⟩ := session_layout env st0 fn calls sr bps ch hopen hfit
  have hs32 : loop_after 0 calls < 4294967296 := loop_after_lt calls 0 (by decide)
  have hsplit : finished_output st
      = ((wavedump_header_fill (u32 (appended calls).length) (u32 (container_size calls))
            (u32 sr) (u16 bps) (u16 ch)).bytes ++ appended calls
          ++ pad_bytes (appended calls).length ++ loop_cue.bytes)
        ++ ((loop_point (loop_after 0 calls)).bytes
              ++ labl_chunk 0 (str_bytes "Loop point")) := by
    rw [hout, trailer, loop_bytes, if_pos h0]
    simp only [List.append_assoc]
  have hpre : ((wavedump_header_fill (u32 (appended calls).length) (u32 (container_size calls))
            (u32 sr) (u16 bps) (u16 ch)).bytes ++ appended calls
          ++ pad_bytes (appended calls).length ++ loop_cue.bytes).length
      = 44 + (appended calls).length + (appended calls).length % 2 + 12 := by
    simp only [List.length_append, WAVEHEADER_bytes_length, pad_bytes_length,
      CUEHEADER_bytes_length]
  obtain ⟨f1, f2, f3, f4, f5, f6⟩ := load32_cuepoint (loop_point (loop_after 0 calls))
    (labl_chunk 0 (str_bytes "Loop point"))
    (u32_lt _) (u32_lt _) (u32_lt _) (u32_lt _) (u32_lt _) (u32_lt _)
  have hv : (loop_point (loop_after 0 calls)).dwPosition = loop_after 0 calls :=
    u32_of_lt hs32
  have hw : (loop_point (loop_after 0 calls)).dwSampleOffset = loop_after 0 calls :=
    u32_of_lt hs32
  have key : ∀ k, load32 (finished_output st)
      (44 + (appended calls).length + (appended calls).length % 2 + 12 + k)
      = load32 ((loop_point (loop_after 0 calls)).bytes
          ++ labl_chunk 0 (str_bytes "Loop point")) k := by
    intro k
    rw [hsplit, ← hpre]
    exact load32_append_right _ _ _
  refine ⟨st, hs, ?_, ?_, ?_, ?_, ?_, ?_⟩
  · rw [key, f1]; rfl
  · rw [key, f2, hv]
  · rw [key, f3]; rfl
  · rw [key, f4]; rfl
  · rw [key, f5]; rfl
  · rw [key, f6, hw]

/-- C9 amended, at a memory-backend session with three bytes and loop
sample 5. -/
theorem cue_point_fields_witness :
    (wavedump_open example_env example_state "-").1 = true
      ∧ mem_fits example_env example_state "-" [Call.append [1, 2, 3], Call.loop_set 5]
      ∧ loop_after 0 [Call.append [1, 2, 3], Call.loop_set 5] ≠ 0
      ∧ ∃ st, session example_env example_state "-" [Call.append [1, 2, 3], Call.loop_set 5]
            44100 16 2 = some st
          ∧ load32 (finished_output st)
              (44 + (appended [Call.append [1, 2, 3], Call.loop_set 5]).length
                + (appended [Call.append [1, 2, 3], Call.loop_set 5]).length % 2 + 12 + 0) = 0
          ∧ load32 (finished_output st)
              (44 + (appended [Call.append [1, 2, 3], Call.loop_set 5]).length
                + (appended [Call.append [1, 2, 3], Call.loop_set 5]).length % 2 + 12 + 4)
              = loop_after 0 [Call.append [1, 2, 3], Call.loop_set 5]
          ∧ load32 (finished_output st)
              (44 + (appended [Call.append [1, 2, 3], Call.loop_set 5]).length
                + (appended [Call.append [1, 2, 3], Call.loop_set 5]).length % 2 + 12 + 8)
              = str_u32 "data"
          ∧ load32 (finished_output st)
              (44 + (appended [Call.append [1, 2, 3], Call.loop_set 5]).length
                + (appended [Call.append [1, 2, 3], Call.loop_set 5]).length % 2 + 12 + 12) = 0
          ∧ load32 (finished_output st)
              (44 + (appended [Call.append [1, 2, 3], Call.loop_set 5]).length
                + (appended [Call.append [1, 2, 3], Call.loop_set 5]).length % 2 + 12 + 16) = 0
          ∧ load32 (finished_output st)
              (44 + (appended [Call.append [1, 2, 3], Call.loop_set 5]).length
                + (appended [Call.append [1, 2, 3], Call.loop_set 5]).length % 2 + 12 + 20)
              = loop_after 0 [Call.append [1, 2, 3], Call.loop_set 5] :=
  ⟨example_open_mem, by decide,
    by decide,
    cue_point_fields example_env example_state "-" [Call.append [1, 2, 3], Call.loop_set 5]
      44100 16 2 example_open_mem
      (by decide) (by decide)⟩

/-! ## The label chunk (C10) -/

theorem load32_after (pre : List Nat) (x : Nat) (rest : List Nat) (n : Nat)
    (hpre : pre.length = n) (hx : x < 4294967296) :
    load32 (pre ++ (store32 x ++ rest)) n = x := by
  have h := load32_append_right pre (store32 x ++ rest) 0
  rw [hpre, Nat.add_zero] at h
  rw [h]
  exact load32_store32 x rest hx

theorem WAVEHEADER_bytes_fields (h : WAVEHEADER) :
    h.bytes
      = store32 h.cRIFF.FOURCC ++ store32 h.cRIFF.Size ++ store32 h.WAVE
          ++ store32 h.cfmt.FOURCC ++ store32 h.cfmt.Size
          ++ store16 h.Format.wFormatTag ++ store16 h.Format.nChannels
          ++ store32 h.Format.nSamplesPerSec ++ store32 h.Format.nAvgBytesPerSec
          ++ store16 h.Format.nBlockAlign ++ store16 h.Format.wBitsPerSample
          ++ store32 h.cdata.FOURCC ++ store32 h.cdata.Size := rfl

theorem header_fill_constants (d fs sr bps ch : Nat) :
    (wavedump_header_fill d fs sr bps ch).cRIFF.FOURCC = u32 (LE32 (str_u32 "RIFF"))
      ∧ (wavedump_header_fill d fs sr bps ch).WAVE = u32 (LE32 (str_u32 "WAVE"))
      ∧ (wavedump_header_fill d fs sr bps ch).cfmt.FOURCC = u32 (LE32 (str_u32 "fmt "))
      ∧ (wavedump_header_fill d fs sr bps ch).cfmt.Size = u32 (LE32 sizeof_WAVEFORMAT_PCM)
      ∧ (wavedump_header_fill d fs sr bps ch).Format.wFormatTag = u16 (LE16 WAVE_FORMAT_PCM)
      ∧ (wavedump_header_fill d fs sr bps ch).cdata.FOURCC = u32 (LE32 (str_u32 "data")) :=
  ⟨rfl, rfl, rfl, rfl, rfl, rfl⟩

theorem tag_images :
    store32 (u32 (LE32 (str_u32 "RIFF"))) = str_bytes "RIFF"
      ∧ store32 (u32 (LE32 (str_u32 "WAVE"))) = str_bytes "WAVE"
      ∧ store32 (u32 (LE32 (str_u32 "fmt "))) = str_bytes "fmt "
      ∧ store32 (u32 (LE32 sizeof_WAVEFORMAT_PCM)) = store32 16
      ∧ store16 (u16 (LE16 WAVE_FORMAT_PCM)) = store16 1
      ∧ store32 (u32 (LE32 (str_u32 "data"))) = str_bytes "data" := by
  decide

/-- The header as its tags and the little-endian images of its fields. -/
theorem header_fill_bytes (d fs sr bps ch : Nat) :
    (wavedump_header_fill d fs sr bps ch).bytes
      = str_bytes "RIFF" ++ store32 (wavedump_header_fill d fs sr bps ch).cRIFF.Size
          ++ str_bytes "WAVE" ++ str_bytes "fmt " ++ store32 16 ++ store16 1
          ++ store16 (wavedump_header_fill d fs sr bps ch).Format.nChannels
          ++ store32 (wavedump_header_fill d fs sr bps ch).Format.nSamplesPerSec
          ++ store32 (wavedump_header_fill d fs sr bps ch).Format.nAvgBytesPerSec
          ++ store16 (wavedump_header_fill d fs sr bps ch).Format.nBlockAlign
          ++ store16 (wavedump_header_fill d fs sr bps ch).Format.wBitsPerSample
          ++ str_bytes "data" ++ store32 (wavedump_header_fill d fs sr bps ch).cdata.Size := by
  obtain ⟨h1, h2, h3, h4, h5, h6⟩ := header_fill_constants d fs sr bps ch
  obtain ⟨t1, t2, t3, t4, t5, t6⟩ := tag_images
  rw [WAVEHEADER_bytes_fields, h1, h2, h3, h4, h5, h6, t1, t2, t3, t4, t5, t6]

theorem tag_values :
    str_bytes "RIFF" = [82, 73, 70, 70] ∧ str_bytes "WAVE" = [87, 65, 86, 69]
      ∧ str_bytes "fmt " = [102, 109, 116, 32] ∧ str_bytes "data" = [100, 97, 116, 97] := by
  decide

theorem drop_take_after (pre t rest : List Nat) (n k : Nat) (hp : pre.length = n)
    (ht : t.length = k) : ((pre ++ (t ++ rest)).drop n).take k = t := by
  rw [List.drop_left' hp, List.take_left' ht]

theorem load16_after (pre : List Nat) (x : Nat) (rest : List Nat) (n : Nat)
    (hpre : pre.length = n) (hx : x < 65536) :
    load16 (pre ++ (store16 x ++ rest)) n = x := by
  have h : load16 (pre ++ (store16 x ++ rest)) (pre.length + 0) = load16 (store16 x ++ rest) 0 := by
    simp only [load16, Nat.add_assoc, getD_append_right_add]
  rw [hpre, Nat.add_zero] at h
  rw [h]
  exact load16_value x hx

theorem header_offsets (a b c d e f g : Nat) :
    (str_bytes "RIFF" ++ store32 a ++ str_bytes "WAVE" ++ str_bytes "fmt " ++ store32 16
        ++ store16 1 ++ store16 b ++ store32 c ++ store32 d ++ store16 e ++ store16 f
        ++ str_bytes "data" ++ store32 g).take 4 = [82, 73, 70, 70]
      ∧ ((str_bytes "RIFF" ++ store32 a ++ str_bytes "WAVE" ++ str_bytes "fmt " ++ store32 16
        ++ store16 1 ++ store16 b ++ store32 c ++ store32 d ++ store16 e ++ store16 f
        ++ str_bytes "data" ++ store32 g).drop 8).take 4 = [87, 65, 86, 69]
      ∧ ((str_bytes "RIFF" ++ store32 a ++ str_bytes "WAVE" ++ str_bytes "fmt " ++ store32 16
        ++ store16 1 ++ store16 b ++ store32 c ++ store32 d ++ store16 e ++ store16 f
        ++ str_bytes "data" ++ store32 g).drop 12).take 4 = [102, 109, 116, 32]
      ∧ load32 (str_bytes "RIFF" ++ store32 a ++ str_bytes "WAVE" ++ str_bytes "fmt "
        ++ store32 16 ++ store16 1 ++ store16 b ++ store32 c ++ store32 d ++ store16 e
        ++ store16 f ++ str_bytes "data" ++ store32 g) 16 = 16
      ∧ load16 (str_bytes "RIFF" ++ store32 a ++ str_bytes "WAVE" ++ str_bytes "fmt "
        ++ store32 16 ++ store16 1 ++ store16 b ++ store32 c ++ store32 d ++ store16 e
        ++ store16 f ++ str_bytes "data" ++ store32 g) 20 = 1
      ∧ ((str_bytes "RIFF" ++ store32 a ++ str_bytes "WAVE" ++ str_bytes "fmt " ++ store32 16
        ++ store16 1 ++ store16 b ++ store32 c ++ store32 d ++ store16 e ++ store16 f
        ++ str_bytes "data" ++ store32 g).drop 36).take 4 = [100, 97, 116, 97] := by
  obtain ⟨v1, v2, v3, v4⟩ := tag_values
  rw [v1, v2, v3, v4]
  refine ⟨?_, ?_, ?_, ?_, ?_, ?_⟩
  · simp only [List.append_assoc]
    exact List.take_left' rfl
  · have h := drop_take_after ([82, 73, 70, 70] ++ store32 a) [87, 65, 86, 69]
      ([102, 109, 116, 32] ++ store32 16 ++ store16 1 ++ store16 b ++ store32 c ++ store32 d
        ++ store16 e ++ store16 f ++ [100, 97, 116, 97] ++ store32 g) 8 4 (by simp [store32, store16]) rfl
    simp only [List.append_assoc] at h ⊢
    exact h
  · have h := drop_take_after ([82, 73, 70, 70] ++ store32 a ++ [87, 65, 86, 69])
      [102, 109, 116, 32]
      (store32 16 ++ store16 1 ++ store16 b ++ store32 c ++ store32 d
        ++ store16 e ++ store16 f ++ [100, 97, 116, 97] ++ store32 g) 12 4 (by simp [store32, store16]) rfl
    simp only [List.append_assoc] at h ⊢
    exact h
  · have h := load32_after
      ([82, 73, 70, 70] ++ store32 a ++ [87, 65, 86, 69] ++ [102, 109, 116, 32]) 16
      (store16 1 ++ store16 b ++ store32 c ++ store32 d
        ++ store16 e ++ store16 f ++ [100, 97, 116, 97] ++ store32 g) 16 (by simp [store32, store16]) (by decide)
    simp only [List.append_assoc] at h ⊢
    exact h
  · have h := load16_after
      ([82, 73, 70, 70] ++ store32 a ++ [87, 65, 86, 69] ++ [102, 109, 116, 32] ++ store32 16) 1
      (store16 b ++ store32 c ++ store32 d
        ++ store16 e ++ store16 f ++ [100, 97, 116, 97] ++ store32 g) 20 (by simp [store32, store16]) (by decide)
    simp only [List.append_assoc] at h ⊢
    exact h
  · have h := drop_take_after
      ([82, 73, 70, 70] ++ store32 a ++ [87, 65, 86, 69] ++ [102, 109, 116, 32] ++ store32 16
        ++ store16 1 ++ store16 b ++ store32 c ++ store32 d ++ store16 e ++ store16 f)
      [100, 97, 116, 97] (store32 g) 36 4 (by simp [store32, store16]) rfl
    simp only [List.append_assoc] at h ⊢
    exact h

/-- C14: for all inputs the header of `wavedump_header_fill` is 44 bytes, the
fields one behind the other with no padding: `RIFF` at offset 0, `WAVE` at 8,
`fmt ` at 12, the size 16 at offset 16, the format tag 1 at offset 20, `data`
at offset 36, and every integer field as its little-endian image (`store16`,
`store32`). -/
theorem header_layout (data_size file_size sample_rate bits_per_sample channels : Nat) :
    (wavedump_header_fill data_size file_size sample_rate bits_per_sample channels).bytes.length
        = 44
      ∧ (wavedump_header_fill data_size file_size sample_rate bits_per_sample
          channels).bytes.take 4 = [82, 73, 70, 70]
      ∧ ((wavedump_header_fill data_size file_size sample_rate bits_per_sample
          channels).bytes.drop 8).take 4 = [87, 65, 86, 69]
      ∧ ((wavedump_header_fill data_size file_size sample_rate bits_per_sample
          channels).bytes.drop 12).take 4 = [102, 109, 116, 32]
      ∧ load32 (wavedump_header_fill data_size file_size sample_rate bits_per_sample
          channels).bytes 16 = 16
      ∧ load16 (wavedump_header_fill data_size file_size sample_rate bits_per_sample
          channels).bytes 20 = 1
      ∧ ((wavedump_header_fill data_size file_size sample_rate bits_per_sample
          channels).bytes.drop 36).take 4 = [100, 97, 116, 97]
      ∧ (wavedump_header_fill data_size file_size sample_rate bits_per_sample channels).bytes
          = str_bytes "RIFF"
            ++ store32 (wavedump_header_fill data_size file_size sample_rate bits_per_sample
                channels).cRIFF.Size
            ++ str_bytes "WAVE" ++ str_bytes "fmt " ++ store32 16 ++ store16 1
            ++ store16 (wavedump_header_fill data_size file_size sample_rate bits_per_sample
                channels).Format.nChannels
            ++ store32 (wavedump_header_fill data_size file_size sample_rate bits_per_sample
                channels).Format.nSamplesPerSec
            ++ store32 (wavedump_header_fill data_size file_size sample_rate bits_per_sample
                channels).Format.nAvgBytesPerSec
            ++ store16 (wavedump_header_fill data_size file_size sample_rate bits_per_sample
                channels).Format.nBlockAlign
            ++ store16 (wavedump_header_fill data_size file_size sample_rate bits_per_sample
                channels).Format.wBitsPerSample
            ++ str_bytes "data"
            ++ store32 (wavedump_header_fill data_size file_size sample_rate bits_per_sample
                channels).cdata.Size := by
  have hb := header_fill_bytes data_size file_size sample_rate bits_per_sample channels
  obtain ⟨o1, o2, o3, o4, o5, o6⟩ := header_offsets
    (wavedump_header_fill data_size file_size sample_rate bits_per_sample channels).cRIFF.Size
    (wavedump_header_fill data_size file_size sample_rate bits_per_sample
      channels).Format.nChannels
    (wavedump_header_fill data_size file_size sample_rate bits_per_sample
      channels).Format.nSamplesPerSec
    (wavedump_header_fill data_size file_size sample_rate bits_per_sample
      channels).Format.nAvgBytesPerSec
    (wavedump_header_fill data_size file_size sample_rate bits_per_sample
      channels).Format.nBlockAlign
    (wavedump_header_fill data_size file_size sample_rate bits_per_sample
      channels).Format.wBitsPerSample
    (wavedump_header_fill data_size file_size sample_rate bits_per_sample channels).cdata.Size
  rw [← hb] at o1 o2 o3 o4 o5 o6
  exact ⟨WAVEHEADER_bytes_length _, o1, o2, o3, o4, o5, o6, hb⟩

/-! ## `wavedump_loop_set`, `wavedump_open`, and the finished session (C15, C16, C17) -/

/-- C15: on every open session `wavedump_loop_set(a)` followed by
`wavedump_loop_set(b)` leaves the state that `wavedump_loop_set(b)` alone
leaves; the call returns, sets `loop_sample` and changes no other field, the
file and `stdout` included; so whatever calls follow, the session goes on as
if only `b` had been set, and `wavedump_finish` sees one loop sample. -/
theorem loop_set_overwrites (st : State) (a b : Nat) (cs : List Call)
    (hopen : st.wave.file.isSome = true) :
    (wavedump_loop_set st a).bind (fun st1 => wavedump_loop_set st1 b) = wavedump_loop_set st b
      ∧ (∃ st1, wavedump_loop_set st b = some st1
          ∧ st1.wave.loop_sample = u32 b
          ∧ st1.wave.data_size = st.wave.data_size
          ∧ st1.wave.len = st.wave.len
          ∧ st1.wave.memsize = st.wave.memsize
          ∧ st1.wave.mem = st.wave.mem
          ∧ st1.wave.ismem = st.wave.ismem
          ∧ st1.wave.file = st.wave.file
          ∧ st1.disk = st.disk
          ∧ st1.stdout = st.stdout)
      ∧ run st (Call.loop_set a :: Call.loop_set b :: cs) = run st (Call.loop_set b :: cs) := by
  have e1 : (wavedump_loop_set st a).bind (fun st1 => wavedump_loop_set st1 b)
      = wavedump_loop_set st b := by
    simp [wavedump_loop_set, hopen]
  refine ⟨e1, ?_, ?_⟩
  · exact ⟨⟨{ st.wave with loop_sample := u32 b }, st.disk, st.stdout⟩,
      by simp only [wavedump_loop_set, hopen, if_true], rfl, rfl, rfl, rfl, rfl, rfl,
      rfl, rfl, rfl⟩
  · have e2 : run st (Call.loop_set a :: Call.loop_set b :: cs)
        = ((wavedump_loop_set st a).bind (fun st1 => wavedump_loop_set st1 b)).bind
            (fun st2 => run st2 cs) := by
      simp only [run, step]
      cases wavedump_loop_set st a <;> rfl
    rw [e2, e1]
    rfl

/-- C15, on the state a successful open of `-` leaves. -/
theorem loop_set_overwrites_witness :
    (wavedump_open example_env example_state "-").2.wave.file.isSome = true
      ∧ (wavedump_loop_set (wavedump_open example_env example_state "-").2 3).bind
            (fun st1 => wavedump_loop_set st1 5)
          = wavedump_loop_set (wavedump_open example_env example_state "-").2 5
      ∧ (∃ st1, wavedump_loop_set (wavedump_open example_env example_state "-").2 5 = some st1
          ∧ st1.wave.loop_sample = u32 5
          ∧ st1.wave.data_size = (wavedump_open example_env example_state "-").2.wave.data_size
          ∧ st1.wave.len = (wavedump_open example_env example_state "-").2.wave.len
          ∧ st1.wave.memsize = (wavedump_open example_env example_state "-").2.wave.memsize
          ∧ st1.wave.mem = (wavedump_open example_env example_state "-").2.wave.mem
          ∧ st1.wave.ismem = (wavedump_open example_env example_state "-").2.wave.ismem
          ∧ st1.wave.file = (wavedump_open example_env example_state "-").2.wave.file
          ∧ st1.disk = (wavedump_open example_env example_state "-").2.disk
          ∧ st1.stdout = (wavedump_open example_env example_state "-").2.stdout)
      ∧ run (wavedump_open example_env example_state "-").2
            (Call.loop_set 3 :: Call.loop_set 5 :: [Call.append [1, 2]])
          = run (wavedump_open example_env example_state "-").2
              (Call.loop_set 5 :: [Call.append [1, 2]]) :=
  ⟨by decide,
    loop_set_overwrites (wavedump_open example_env example_state "-").2 3 5
      [Call.append [1, 2]] (by decide)⟩

theorem slice_length (mem : Nat → Nat) (off n : Nat) : (slice mem off n).length = n := by
  simp [slice]

theorem slice_memcpy (mem : Nat → Nat) (off : Nat) (src : List Nat) :
    slice (memcpy mem off src) off src.length = src := by
  apply List.ext_getElem
  · simp [slice]
  · intro i h1 h2
    simp only [slice, memcpy, List.getElem_map, List.getElem_range]
    rw [if_pos (by omega)]
    have : off + i - off = i := by omega
    rw [this, List.getD_eq_getElem _ _ h2]

theorem image_memset (mem : Nat → Nat) (n : Nat) : image (memset mem 0 n) n = List.replicate n 0 := by
  apply List.ext_getElem
  · simp [image]
  · intro i h1 h2
    simp only [image, List.length_map, List.length_range] at h1
    simp [image, memset, h1]

theorem wavedump_append_mem (st : State) (buf : List Nat) (hf : st.wave.file.isSome = true)
    (hm : st.wave.ismem = true) :
    (wavedump_append st buf).wave.mem = memcpy st.wave.mem st.wave.len buf := by
  simp [wavedump_append, wavedump_write, wavedump_mem, hf, hm]

/-- C16: a successful `wavedump_open` with destination `-` leaves a
memory-backend session (`ismem` set, `stdout` as the handle) with capacity
8 MiB, `data_size = 0`, `loop_sample = 0`, `len = 44` and the first 44 bytes
of the buffer zero; the next `wavedump_append`, of a buffer that the block
grown once can hold (`44 + len <= 12582912`), has its copy inside the block
and its bytes in the buffer from offset 44 on; every other destination
leaves `ismem` clear. -/
theorem open_selects_backend (env : Env) (st0 : State) (fn : String) (buf : List Nat)
    (hopen : (wavedump_open env st0 "-").1 = true)
    (hbuf : 44 + buf.length ≤ 12582912) :
    (wavedump_open env st0 "-").2.wave.ismem = true
      ∧ (wavedump_open env st0 "-").2.wave.file = some FILE.stdout
      ∧ (wavedump_open env st0 "-").2.wave.memsize = 8388608
      ∧ (wavedump_open env st0 "-").2.wave.data_size = 0
      ∧ (wavedump_open env st0 "-").2.wave.loop_sample = 0
      ∧ (wavedump_open env st0 "-").2.wave.len = 44
      ∧ image (wavedump_open env st0 "-").2.wave.mem 44 = List.replicate 44 0
      ∧ write_inside (wavedump_open env st0 "-").2 buf
      ∧ slice (wavedump_append (wavedump_open env st0 "-").2 buf).wave.mem 44 buf.length = buf
      ∧ (fn ≠ "-" → (wavedump_open env st0 fn).2.wave.ismem = false) := by
  have hm : env.malloc_ok = true := by
    rcases wavedump_open_true env st0 "-" hopen with ⟨_, h⟩ | ⟨h, _⟩
    · exact h
    · exact absurd rfl h
  have e := wavedump_open_mem env st0 hm
  have hmem : (wavedump_open env st0 "-").2.wave.mem = memset env.heap 0 44 := by rw [e]; rfl
  have hlen : (wavedump_open env st0 "-").2.wave.len = 44 := by rw [e]; rfl
  have hcap : (wavedump_open env st0 "-").2.wave.memsize = 8388608 := by rw [e]
  have hism : (wavedump_open env st0 "-").2.wave.ismem = true := by rw [e]
  have hfile : (wavedump_open env st0 "-").2.wave.file = some FILE.stdout := by rw [e]
  refine ⟨hism, hfile, hcap, by rw [e], by rw [e], hlen, ?_, ?_, ?_,
    wavedump_open_other env st0 fn⟩
  · rw [hmem]
    exact image_memset _ 44
  · intro _
    have hgrow : (wavedump_mem (wavedump_open env st0 "-").2.wave buf).memsize
        = if u32 ((wavedump_open env st0 "-").2.wave.len + buf.length)
              > (wavedump_open env st0 "-").2.wave.memsize
            then u32 ((wavedump_open env st0 "-").2.wave.memsize * 3 / 2)
            else (wavedump_open env st0 "-").2.wave.memsize := rfl
    unfold copy_inside
    rw [hgrow, hlen, hcap, u32_of_lt (by omega)]
    split
    · exact ⟨hbuf, by decide⟩
    · exact ⟨by omega, by decide⟩
  · rw [wavedump_append_mem _ buf (by rw [hfile]; rfl) hism, hlen]
    exact slice_memcpy _ 44 buf

/-- C16, with the example environment, a three-byte append and the
destination `out.wav` for the file backend. -/
theorem open_selects_backend_witness :
    (wavedump_open example_env example_state "-").1 = true
      ∧ 44 + [1, 2, 3].length ≤ 12582912
      ∧ (wavedump_open example_env example_state "-").2.wave.ismem = true
      ∧ (wavedump_open example_env example_state "-").2.wave.file = some FILE.stdout
      ∧ (wavedump_open example_env example_state "-").2.wave.memsize = 8388608
      ∧ (wavedump_open example_env example_state "-").2.wave.data_size = 0
      ∧ (wavedump_open example_env example_state "-").2.wave.loop_sample = 0
      ∧ (wavedump_open example_env example_state "-").2.wave.len = 44
      ∧ image (wavedump_open example_env example_state "-").2.wave.mem 44 = List.replicate 44 0
      ∧ write_inside (wavedump_open example_env example_state "-").2 [1, 2, 3]
      ∧ slice (wavedump_append (wavedump_open example_env example_state "-").2
            [1, 2, 3]).wave.mem 44 [1, 2, 3].length = [1, 2, 3]
      ∧ ("out.wav" ≠ "-" →
          (wavedump_open example_env example_state "out.wav").2.wave.ismem = false) :=
  ⟨example_open_mem, by decide,
    open_selects_backend example_env example_state "out.wav" [1, 2, 3] example_open_mem
      (by decide)⟩

/-- C17: `wavedump_finish` leaves the handle cleared, whatever the state it
ran on; on the state it leaves, every `wavedump_append` and every further
`wavedump_finish` returns that very state: no field of the session, no byte
of the file and no write on `stdout` is changed or added. -/
theorem finished_is_terminal (env env1 : Env) (st : State) (sr bps ch sr1 bps1 ch1 : Nat)
    (buf : List Nat) :
    (wavedump_finish env st sr bps ch).wave.file = none
      ∧ wavedump_append (wavedump_finish env st sr bps ch) buf
          = wavedump_finish env st sr bps ch
      ∧ wavedump_finish env1 (wavedump_finish env st sr bps ch) sr1 bps1 ch1
          = wavedump_finish env st sr bps ch := by
  have h : (wavedump_finish env st sr bps ch).wave.file = none := by
    unfold wavedump_finish
    split
    · rfl
    · rename_i hn
      cases hf : st.wave.file
      · rfl
      · rw [hf] at hn
        exact absurd rfl hn
  refine ⟨h, ?_, ?_⟩
  · simp [wavedump_append, h]
  · generalize wavedump_finish env st sr bps ch = st1 at h ⊢
    simp [wavedump_finish, h]

/-! ## The buffer capacity (C19) -/

theorem wavedump_mem_len (w : wavedump_t) (buf : List Nat) :
    (wavedump_mem w buf).len = u32 (w.len + buf.length) := rfl

theorem wavedump_mem_memsize (w : wavedump_t) (buf : List Nat) :
    (wavedump_mem w buf).memsize
      = if u32 (w.len + buf.length) > w.memsize then u32 (w.memsize * 3 / 2)
        else w.memsize := rfl

/-- The capacity covers the new length when the append brings the length to
at most one and a half times the old capacity. -/
theorem wavedump_mem_capacity (w : wavedump_t) (buf : List Nat)
    (h32 : w.memsize * 3 / 2 < 4294967296)
    (hfit : w.len + buf.length ≤ w.memsize * 3 / 2) :
    (wavedump_mem w buf).len ≤ (wavedump_mem w buf).memsize := by
  rw [wavedump_mem_len, wavedump_mem_memsize, u32_of_lt (Nat.lt_of_le_of_lt hfit h32)]
  split
  · rw [u32_of_lt h32]
    exact hfit
  · omega

theorem example_open_wave :
    (wavedump_open example_env example_state "-").2.wave.len = 44
      ∧ (wavedump_open example_env example_state "-").2.wave.memsize = 8388608 := by
  decide

theorem growth_overrun (buf : List Nat) (hb : buf.length = 12582869) :
    (wavedump_mem (wavedump_open example_env example_state "-").2.wave buf).len = 12582913
      ∧ (wavedump_mem (wavedump_open example_env example_state "-").2.wave buf).memsize
          = 12582912 := by
  rw [wavedump_mem_len, wavedump_mem_memsize, example_open_wave.1, example_open_wave.2, hb]
  decide

theorem length_wraps (buf : List Nat) (hb : buf.length = 4294967252) :
    (wavedump_mem (wavedump_open example_env example_state "-").2.wave buf).len = 0
      ∧ (wavedump_mem (wavedump_open example_env example_state "-").2.wave buf).memsize
          = 8388608 := by
  rw [wavedump_mem_len, wavedump_mem_memsize, example_open_wave.1, example_open_wave.2, hb]
  decide

/-- C19, the code at failing inputs. On the state a successful open of `-`
leaves (`len = 44`, capacity 8388608) an append of 12582869 bytes grows the
capacity once, to 12582912, and sets `len` to 12582913: the length exceeds the
capacity. An append of `2^32 - 44` bytes wraps `len + src_len` to 0: `len`
becomes 0 and the capacity is not grown at all. -/
theorem capacity_overrun :
    (wavedump_open example_env example_state "-").2.wave.len
        ≤ (wavedump_open example_env example_state "-").2.wave.memsize
      ∧ (wavedump_mem (wavedump_open example_env example_state "-").2.wave
          (List.replicate 12582869 0)).len = 12582913
      ∧ (wavedump_mem (wavedump_open example_env example_state "-").2.wave
          (List.replicate 12582869 0)).memsize = 12582912
      ∧ ¬ (wavedump_mem (wavedump_open example_env example_state "-").2.wave
            (List.replicate 12582869 0)).len
          ≤ (wavedump_mem (wavedump_open example_env example_state "-").2.wave
            (List.replicate 12582869 0)).memsize
      ∧ (wavedump_mem (wavedump_open example_env example_state "-").2.wave
          (List.replicate 4294967252 0)).len = 0
      ∧ (wavedump_mem (wavedump_open example_env example_state "-").2.wave
          (List.replicate 4294967252 0)).memsize = 8388608 := by
  obtain ⟨h1, h2⟩ := growth_overrun (List.replicate 12582869 0) (List.length_replicate _ _)
  obtain ⟨h3, h4⟩ := length_wraps (List.replicate 4294967252 0) (List.length_replicate _ _)
  refine ⟨?_, h1, h2, ?_, h3, h4⟩
  · rw [example_open_wave.1, example_open_wave.2]
    decide
  · rw [h1, h2]
    decide

/-! ## A short write in the flush (C18) -/

theorem wavedump_write_mem_stdout (st : State) (src : List Nat) (hm : st.wave.ismem = true) :
    (wavedump_write st src).stdout = st.stdout
      ∧ (wavedump_write st src).wave.ismem = true := by
  simp [wavedump_write, hm, wavedump_mem]

theorem labl_write_mem_stdout (st : State) (point_id : Nat) (label : List Nat)
    (hm : st.wave.ismem = true) :
    (wavedump_LIST_adtl_labl_write st point_id label).stdout = st.stdout
      ∧ (wavedump_LIST_adtl_labl_write st point_id label).wave.ismem = true := by
  have h1 := wavedump_write_mem_stdout st
    (RIFFCHUNK.bytes { FOURCC := u32 (LE32 (str_u32 "LIST")),
                       Size := u32 (sizeof_uint32 + sizeof_RIFFCHUNK
                         + u32 (sizeof_uint32 + (strlen label + 1))) }) hm
  have h2 := wavedump_write_mem_stdout _ (store32 (u32 (LE32 (str_u32 "adtl")))) h1.2
  have h3 := wavedump_write_mem_stdout _
    (RIFFCHUNK.bytes { FOURCC := u32 (LE32 (str_u32 "labl")),
                       Size := u32 (sizeof_uint32 + (strlen label + 1)) }) h2.2
  have h4 := wavedump_write_mem_stdout _ (store32 (u32 point_id)) h3.2
  have h5 := wavedump_write_mem_stdout _ (c_string label) h4.2
  exact ⟨h5.1.trans (h4.1.trans (h3.1.trans (h2.1.trans h1.1))), h5.2⟩

theorem finish_tail_mem_stdout (st : State) (hm : st.wave.ismem = true) :
    (finish_loop (finish_pad st)).stdout = st.stdout
      ∧ (finish_loop (finish_pad st)).wave.ismem = true := by
  have hp : (finish_pad st).stdout = st.stdout ∧ (finish_pad st).wave.ismem = true := by
    unfold finish_pad
    split
    · exact wavedump_write_mem_stdout st [0] hm
    · exact ⟨rfl, hm⟩
  have hl : ∀ s : State, s.wave.ismem = true →
      (finish_loop s).stdout = s.stdout ∧ (finish_loop s).wave.ismem = true := by
    intro s hs
    unfold finish_loop
    split
    · have h1 := wavedump_write_mem_stdout s loop_cue.bytes hs
      have h2 := wavedump_write_mem_stdout _ (loop_point s.wave.loop_sample).bytes h1.2
      have h3 := labl_write_mem_stdout _ 0 (str_bytes "Loop point") h2.2
      exact ⟨h3.1.trans (h2.1.trans h1.1), h3.2⟩
    · exact ⟨rfl, hs⟩
  exact ⟨((hl _ hp.2).1).trans hp.1, (hl _ hp.2).2⟩

theorem stops_at_short_spec (tr : List Write) (h : stops_at_short tr) :
    ∀ pre w post, tr = pre ++ w :: post → w.data.length < w.requested → post = [] := by
  induction tr with
  | nil =>
    intro pre w post e
    simp at e
  | cons x xs ih =>
    intro pre w post e hw
    cases pre with
    | nil =>
      simp only [List.nil_append, List.cons.injEq] at e
      obtain ⟨e1, e2⟩ := e
      subst e1 e2
      exact h.1 hw
    | cons p ps =>
      simp only [List.cons_append, List.cons.injEq] at e
      exact ih h.2 ps w post e.2 hw

/-- The writes the flush loop adds stop at the first short one. -/
theorem flush_loop_stops (mem : Nat → Nat) (wr : Nat → Nat → Nat) (B r bq : Nat) :
    ∀ fuel i out, ∃ tr, flush_loop mem wr B r bq fuel i out = out ++ tr ∧ stops_at_short tr := by
  intro fuel
  induction fuel with
  | zero =>
    intro i out
    exact ⟨[], by simp [flush_loop], trivial⟩
  | succ fuel ih =>
    intro i out
    unfold flush_loop
    simp only []
    split
    · split
      · exact ⟨[Write.mk B (slice mem i (min (wr out.length B) B))], rfl, fun _ => rfl, trivial⟩
      · rename_i hn
        have hw1 : ¬ Write.short (Write.mk B (slice mem i (min (wr out.length B) B))) := by
          simp only [Write.short, slice_length]
          omega
        split
        · split
          · refine ⟨[Write.mk B (slice mem i (min (wr out.length B) B)),
              Write.mk r (slice mem bq
                      (min (wr (out ++ [Write.mk B
                        (slice mem i (min (wr out.length B) B))]).length r) r))], ?_, ?_⟩
            · simp only [List.append_assoc, List.singleton_append, List.cons_append, List.nil_append]
            · exact ⟨fun h => absurd h hw1, fun _ => rfl, trivial⟩
          · rename_i hm
            obtain ⟨tr, e, hs⟩ := ih (u32 (i + B))
              (out ++ [Write.mk B (slice mem i (min (wr out.length B) B))]
                ++ [Write.mk r (slice mem bq
                      (min (wr (out ++ [Write.mk B
                        (slice mem i (min (wr out.length B) B))]).length r) r))])
            refine ⟨Write.mk B (slice mem i (min (wr out.length B) B))
              :: Write.mk r (slice mem bq
                      (min (wr (out ++ [Write.mk B
                        (slice mem i (min (wr out.length B) B))]).length r) r)) :: tr, ?_, ?_⟩
            · rw [e]
              simp only [List.append_assoc, List.singleton_append, List.cons_append, List.nil_append]
            · refine ⟨fun h => absurd h hw1, fun h => ?_, hs⟩
              exfalso
              simp only [Write.short, slice_length] at h
              omega
        · obtain ⟨tr, e, hs⟩ := ih (u32 (i + B))
            (out ++ [Write.mk B (slice mem i (min (wr out.length B) B))])
          refine ⟨Write.mk B (slice mem i (min (wr out.length B) B)) :: tr, ?_, ?_⟩
          · rw [e]
            simp only [List.append_assoc, List.singleton_append, List.cons_append, List.nil_append]
          · exact ⟨fun h => absurd h hw1, hs⟩
    · exact ⟨[], by simp, trivial⟩

theorem flush_stops (mem : Nat → Nat) (wr : Nat → Nat → Nat) (L B : Nat) (out : List Write) :
    ∃ tr, flush mem wr L B out = out ++ tr
      ∧ ∀ pre w post, tr = pre ++ w :: post → w.data.length < w.requested → post = [] := by
  obtain ⟨tr, e, hs⟩ := flush_loop_stops mem wr B (L % B) (u32 (B * (L / B))) (L / B + 1) 0 out
  exact ⟨tr, e, stops_at_short_spec tr hs⟩

/-- A flush of ten bytes in blocks of three in which the second write comes
back short: the first block goes out whole, the second write transfers one
byte, and the two writes still due (the third block and the remainder) are not
issued. -/
theorem flush_short_write_example :
    flush (fun a => a) (fun k n => if k = 1 then 1 else n) 10 3 []
      = [⟨3, [0, 1, 2]⟩, ⟨3, [3]⟩] := by
  decide

theorem finish_mem_stdout (env : Env) (st : State) (sr bps ch : Nat)
    (hm : st.wave.ismem = true) (hf : st.wave.file.isSome = true) :
    (wavedump_finish env st sr bps ch).stdout
      = flush (memcpy (finish_loop (finish_pad st)).wave.mem 0
            (wavedump_header_fill (finish_loop (finish_pad st)).wave.data_size
              (finish_loop (finish_pad st)).wave.len (u32 sr) (u16 bps) (u16 ch)).bytes)
          env.fwrite_stdout (finish_loop (finish_pad st)).wave.len
          (u32 (BUFFSIZE * env.sizeof_stereo_sample_t * 2)) st.stdout := by
  obtain ⟨h1, h2⟩ := finish_tail_mem_stdout st hm
  simp only [wavedump_finish, hf, if_true, finish_header, finish_file_size, h2, h1]

/-- C18: in every memory-backend session that holds its handle, whatever the
buffer, its length, the block size and the outcomes of the writes on `stdout`,
`wavedump_finish` adds to the writes on `stdout` a sequence in which no write
has a successor once it transferred fewer bytes than it was asked for (the
loop is left at the first short write, there is no retry and the rest of the
buffer is not sent), and the state it returns has the handle cleared. -/
theorem flush_failure_stops (env : Env) (st : State) (sr bps ch : Nat)
    (hm : st.wave.ismem = true) (hf : st.wave.file.isSome = true) :
    (wavedump_finish env st sr bps ch).wave.file = none
      ∧ ∃ tr, (wavedump_finish env st sr bps ch).stdout = st.stdout ++ tr
          ∧ ∀ pre w post, tr = pre ++ w :: post → w.data.length < w.requested → post = [] := by
  refine ⟨?_, ?_⟩
  · simp only [wavedump_finish, hf, if_true]
  · rw [finish_mem_stdout env st sr bps ch hm hf]
    exact flush_stops _ _ _ _ _

/-- C18, with a buffer of two blocks and writes that each come back one byte
short. -/
theorem flush_failure_stops_witness :
    two_block_state.wave.ismem = true ∧ two_block_state.wave.file.isSome = true
      ∧ (wavedump_finish short_write_env two_block_state 44100 16 2).wave.file = none
      ∧ ∃ tr, (wavedump_finish short_write_env two_block_state 44100 16 2).stdout
            = two_block_state.stdout ++ tr
          ∧ ∀ pre w post, tr = pre ++ w :: post → w.data.length < w.requested → post = [] :=
  ⟨rfl, rfl, flush_failure_stops short_write_env two_block_state 44100 16 2 rfl rfl⟩

/-! ## The data bytes (C13) -/

theorem append_capacity (st : State) (buf : List Nat) (hf : st.wave.file.isSome = true)
    (hm : st.wave.ismem = true) :
    (wavedump_append st buf).wave.len = u32 (st.wave.len + buf.length)
      ∧ (wavedump_append st buf).wave.memsize
          = (if u32 (st.wave.len + buf.length) > st.wave.memsize
              then u32 (st.wave.memsize * 3 / 2) else st.wave.memsize)
      ∧ (wavedump_append st buf).wave.data_size = u32 (st.wave.data_size + buf.length)
      ∧ (wavedump_append st buf).wave.file.isSome = true
      ∧ (wavedump_append st buf).wave.ismem = true := by
  simp [wavedump_append, wavedump_write, wavedump_mem, hf, hm]

theorem example_open_fields :
    (wavedump_open example_env example_state "-").2.wave.file.isSome = true
      ∧ (wavedump_open example_env example_state "-").2.wave.ismem = true
      ∧ (wavedump_open example_env example_state "-").2.wave.len = 44
      ∧ (wavedump_open example_env example_state "-").2.wave.memsize = 8388608
      ∧ (wavedump_open example_env example_state "-").2.wave.data_size = 0 := by
  decide


theorem drop_take_inside (hd rest : List Nat) (n k : Nat) (h : n + k ≤ hd.length) :
    ((hd ++ rest).drop n).take k = (hd.drop n).take k := by
  rw [List.drop_append_of_le_length (by omega),
    List.take_append_of_le_length (by rw [List.length_drop]; omega)]

theorem header_data_tag (d fs sr bps ch : Nat) :
    ((wavedump_header_fill d fs sr bps ch).bytes.drop 36).take 4 = str_bytes "data" := by
  rw [header_fill_bytes, tag_values.2.2.2]
  have h := (header_offsets (wavedump_header_fill d fs sr bps ch).cRIFF.Size
    (wavedump_header_fill d fs sr bps ch).Format.nChannels
    (wavedump_header_fill d fs sr bps ch).Format.nSamplesPerSec
    (wavedump_header_fill d fs sr bps ch).Format.nAvgBytesPerSec
    (wavedump_header_fill d fs sr bps ch).Format.nBlockAlign
    (wavedump_header_fill d fs sr bps ch).Format.wBitsPerSample
    (wavedump_header_fill d fs sr bps ch).cdata.Size).2.2.2.2.2
  rw [tag_values.2.2.2] at h
  exact h

/-- Data placement where every copy stays inside the block (on the file
backend: always): whatever calls of `wavedump_append` and `wavedump_loop_set`
the session makes, the finished output carries the tag `data` at offset 36,
the last eight bytes of the 44-byte header being the `data` chunk header, and
the bytes from offset 44 on are the appended buffers one behind the other in
call order, byte for byte. -/
theorem data_inside_verbatim (env : Env) (st0 : State) (fn : String) (calls : List Call)
    (sr bps ch : Nat) (hopen : (wavedump_open env st0 fn).1 = true)
    (hfit : mem_fits env st0 fn calls) :
    ∃ st, session env st0 fn calls sr bps ch = some st
      ∧ ((finished_output st).drop 36).take 4 = str_bytes "data"
      ∧ ((finished_output st).drop 44).take (appended calls).length = appended calls := by
  obtain ⟨st, hs, hout, _⟩ := session_layout env st0 fn calls sr bps ch hopen hfit
  refine ⟨st, hs, ?_, ?_⟩
  · rw [hout, List.append_assoc,
      drop_take_inside _ _ 36 4 (by rw [WAVEHEADER_bytes_length]; decide), header_data_tag]
  · rw [hout, List.append_assoc]
    exact drop_take_after _ _ _ 44 _ (WAVEHEADER_bytes_length _) rfl

theorem append_overruns (buf : List Nat) (hb : buf.length = 12582869) :
    (wavedump_append (wavedump_open example_env example_state "-").2 buf).wave.len = 12582913
      ∧ (wavedump_append (wavedump_open example_env example_state "-").2 buf).wave.memsize
          = 12582912
      ∧ (wavedump_append (wavedump_open example_env example_state "-").2 buf).wave.data_size
          = 12582869 := by
  obtain ⟨hf, hm, hl, hc, hd⟩ := example_open_fields
  obtain ⟨e1, e2, e3, _⟩ := append_capacity _ buf hf hm
  rw [e1, e2, e3, hl, hc, hd, hb]
  decide

/-- C13, the code at a failing input: a memory-backend session whose one
`wavedump_append` carries 12582869 bytes. The data goes to the offsets 44 to
12582913 of the buffer and `data_size` counts all of it, while the block,
grown once, has 12582912 bytes: the last data byte is copied past the end of
the block and is not among the bytes the buffer holds. -/
theorem data_overruns_block :
    (List.replicate 12582869 7).length = 12582869
      ∧ (wavedump_append (wavedump_open example_env example_state "-").2
          (List.replicate 12582869 7)).wave.len = 44 + 12582869
      ∧ (wavedump_append (wavedump_open example_env example_state "-").2
          (List.replicate 12582869 7)).wave.memsize = 12582912
      ∧ (wavedump_append (wavedump_open example_env example_state "-").2
          (List.replicate 12582869 7)).wave.data_size = 12582869
      ∧ (wavedump_append (wavedump_open example_env example_state "-").2
          (List.replicate 12582869 7)).wave.memsize
          < (wavedump_append (wavedump_open example_env example_state "-").2
              (List.replicate 12582869 7)).wave.len := by
  obtain ⟨h1, h2, h3⟩ := append_overruns (List.replicate 12582869 7)
    (List.length_replicate _ _)
  refine ⟨List.length_replicate _ _, h1, h2, h3, ?_⟩
  rw [h1, h2]
  decide

/-! ## The `cue ` chunk (C11) -/

theorem loop_cue_bytes : loop_cue.bytes = str_bytes "cue " ++ store32 28 ++ store32 1 := by
  decide

theorem labl_loop_point_tag :
    (labl_chunk 0 (str_bytes "Loop point")).take 4 = str_bytes "LIST" := by
  decide

theorem cue_chunk_offsets (pre pt rest : List Nat) (base : Nat) (hpre : pre.length = base)
    (hpt : pt.length = 24) :
    ((pre ++ (str_bytes "cue " ++ store32 28 ++ store32 1 ++ pt ++ rest)).drop base).take 4
        = str_bytes "cue "
      ∧ load32 (pre ++ (str_bytes "cue " ++ store32 28 ++ store32 1 ++ pt ++ rest)) (base + 4)
          = 28
      ∧ ((pre ++ (str_bytes "cue " ++ store32 28 ++ store32 1 ++ pt ++ rest)).drop
            (base + 8)).take 28 = store32 1 ++ pt
      ∧ (pre ++ (str_bytes "cue " ++ store32 28 ++ store32 1 ++ pt ++ rest)).drop
            (base + 8 + 28) = rest := by
  have h4 : (str_bytes "cue ").length = 4 := by decide
  refine ⟨?_, ?_, ?_, ?_⟩
  · simp only [List.append_assoc]
    exact drop_take_after pre _ _ base 4 hpre h4
  · have h := load32_after (pre ++ str_bytes "cue ") 28 (store32 1 ++ pt ++ rest) (base + 4)
      (by rw [List.length_append, hpre, h4]) (by decide)
    simp only [List.append_assoc] at h ⊢
    exact h
  · have h := drop_take_after (pre ++ str_bytes "cue " ++ store32 28) (store32 1 ++ pt) rest
      (base + 8) 28
      (by simp only [List.length_append, hpre, h4, store32_length])
      (by simp only [List.length_append, store32_length, hpt])
    simp only [List.append_assoc] at h ⊢
    exact h
  · have h : ((pre ++ str_bytes "cue " ++ store32 28 ++ store32 1 ++ pt) ++ rest).drop
        (base + 8 + 28) = rest :=
      List.drop_left'
        (show (pre ++ str_bytes "cue " ++ store32 28 ++ store32 1 ++ pt).length
            = base + 8 + 28 by
          simp only [List.length_append, hpre, h4, store32_length, hpt])
    simp only [List.append_assoc] at h ⊢
    exact h

/-- The `cue ` chunk in the output of a session that keeps its copies inside
the block (file backend: every session) and ends with a nonzero loop sample:
the chunk starts behind the header, the data and its pad byte, its size field
holds 28, the 28 bytes after its 8-byte header are the point count and the
cue point, and the `LIST` chunk follows. -/
theorem cue_chunk_in_session (env : Env) (st0 : State) (fn : String) (calls : List Call)
    (sr bps ch : Nat) (hopen : (wavedump_open env st0 fn).1 = true)
    (hfit : mem_fits env st0 fn calls) (h0 : loop_after 0 calls ≠ 0) :
    ∃ st, session env st0 fn calls sr bps ch = some st
      ∧ ((finished_output st).drop
            (44 + (appended calls).length + (appended calls).length % 2)).take 4
          = str_bytes "cue "
      ∧ load32 (finished_output st)
            (44 + (appended calls).length + (appended calls).length % 2 + 4) = 28
      ∧ ((finished_output st).drop
            (44 + (appended calls).length + (appended calls).length % 2 + 8)).take 28
          = store32 1 ++ (loop_point (loop_after 0 calls)).bytes
      ∧ (finished_output st).drop
            (44 + (appended calls).length + (appended calls).length % 2 + 8 + 28)
          = labl_chunk 0 (str_bytes "Loop point") := by
  obtain ⟨st, hs, hout, _⟩ := session_layout env st0 fn calls sr bps ch hopen hfit
  have hsplit : finished_output st
      = ((wavedump_header_fill (u32 (appended calls).length) (u32 (container_size calls))
            (u32 sr) (u16 bps) (u16 ch)).bytes ++ appended calls
          ++ pad_bytes (appended calls).length)
        ++ (str_bytes "cue " ++ store32 28 ++ store32 1
              ++ (loop_point (loop_after 0 calls)).bytes
              ++ labl_chunk 0 (str_bytes "Loop point")) := by
    rw [hout, trailer, loop_bytes, if_pos h0, loop_cue_bytes]
    simp only [List.append_assoc]
  have hpre : ((wavedump_header_fill (u32 (appended calls).length) (u32 (container_size calls))
            (u32 sr) (u16 bps) (u16 ch)).bytes ++ appended calls
          ++ pad_bytes (appended calls).length).length
      = 44 + (appended calls).length + (appended calls).length % 2 := by
    simp only [List.length_append, WAVEHEADER_bytes_length, pad_bytes_length]
  obtain ⟨c1, c2, c3, c4⟩ := cue_chunk_offsets _ (loop_point (loop_after 0 calls)).bytes
    (labl_chunk 0 (str_bytes "Loop point")) _ hpre (CUEPOINT_bytes_length _)
  rw [← hsplit] at c1 c2 c3 c4
  exact ⟨st, hs, c1, c2, c3, c4⟩

theorem finish_loop_writes (st : State) (h0 : st.wave.loop_sample ≠ 0) :
    finish_loop st
      = (labl_writes 0 (str_bytes "Loop point")).foldl wavedump_write
          (wavedump_write (wavedump_write st (str_bytes "cue " ++ store32 28 ++ store32 1))
            (loop_point st.wave.loop_sample).bytes) := by
  unfold finish_loop
  rw [if_pos h0, ← loop_cue_bytes]
  rfl

theorem loop_writes_inside_lt (st : State) (ho : Opened st)
    (hin : writes_inside st
      ([str_bytes "cue " ++ store32 28 ++ store32 1, (loop_point st.wave.loop_sample).bytes]
        ++ labl_writes 0 (str_bytes "Loop point")))
    (hm : st.wave.ismem = true) : st.wave.len + 71 < 4294967296 := by
  have h := writes_inside_bound _ st hm ho.len_lt hin
  simp only [List.map_append, List.sum_append, List.map_cons, List.map_nil, List.sum_cons,
    List.sum_nil, CUEPOINT_bytes_length, labl_writes_total] at h
  have h12 : (str_bytes "cue " ++ store32 28 ++ store32 1).length = 12 := by decide
  rw [h12] at h
  omega

/-- C11: whenever the loop sample is nonzero, the step of `wavedump_finish`
that writes the loop chunks hands to `wavedump_write`, in this order, the
twelve bytes `cue `, 28, 1 (chunk tag, size field, point count), the 24 bytes
of the one `CUEPOINT`, and then the pieces of the `LIST` chunk. So the size
field holds 28, which is 4 plus the size of one `CUEPOINT`, and behind the
8-byte chunk header exactly `4 + 24 = 28` bytes are emitted before the next
chunk begins. This holds on every state, whatever the backend and whatever
the buffer. On an open session whose buffer lies inside its block and whose
copies for these writes stay inside it (file backend: always) the same is
read off the container: the chunk
starts where the container ended, the field four bytes further reads 28, the
28 bytes behind the chunk header are the count and the point, and the `LIST`
chunk follows. -/
theorem cue_chunk_size (st : State) (h0 : st.wave.loop_sample ≠ 0) :
    finish_loop st
        = (labl_writes 0 (str_bytes "Loop point")).foldl wavedump_write
            (wavedump_write (wavedump_write st (str_bytes "cue " ++ store32 28 ++ store32 1))
              (loop_point st.wave.loop_sample).bytes)
      ∧ load32 (str_bytes "cue " ++ store32 28 ++ store32 1) 4 = 28
      ∧ 28 = 4 + 1 * sizeof_CUEPOINT
      ∧ (store32 1).length + (loop_point st.wave.loop_sample).bytes.length = 28
      ∧ (labl_chunk 0 (str_bytes "Loop point")).take 4 = str_bytes "LIST"
      ∧ (Opened st → inside_block st →
          writes_inside st
            ([str_bytes "cue " ++ store32 28 ++ store32 1,
              (loop_point st.wave.loop_sample).bytes]
              ++ labl_writes 0 (str_bytes "Loop point")) →
          inside_block (finish_loop st)
            ∧ ((finished_output (finish_loop st)).drop (finished_output st).length).take 4
              = str_bytes "cue "
            ∧ load32 (finished_output (finish_loop st)) ((finished_output st).length + 4) = 28
            ∧ ((finished_output (finish_loop st)).drop
                  ((finished_output st).length + 8)).take 28
                = store32 1 ++ (loop_point st.wave.loop_sample).bytes
            ∧ (finished_output (finish_loop st)).drop ((finished_output st).length + 8 + 28)
                = labl_chunk 0 (str_bytes "Loop point")) := by
  refine ⟨finish_loop_writes st h0, by decide, rfl, ?_, labl_loop_point_tag, ?_⟩
  · rw [store32_length, CUEPOINT_bytes_length]
  · intro ho hblock hin
    have hfin : inside_block (finish_loop st) := by
      rw [finish_loop_writes st h0]
      exact writes_inside_block _ st hblock hin
    have he := finish_loop_emits st ho
      (by intro hm
          have := loop_writes_inside_lt st ho hin hm
          rw [loop_bytes_length, if_pos h0]
          exact this)
    have hout : finished_output (finish_loop st)
        = finished_output st
          ++ (str_bytes "cue " ++ store32 28 ++ store32 1
                ++ (loop_point st.wave.loop_sample).bytes
                ++ labl_chunk 0 (str_bytes "Loop point")) := by
      rw [he.out, loop_bytes, if_pos h0, loop_cue_bytes]
    obtain ⟨c1, c2, c3, c4⟩ := cue_chunk_offsets (finished_output st)
      (loop_point st.wave.loop_sample).bytes (labl_chunk 0 (str_bytes "Loop point")) _ rfl
      (CUEPOINT_bytes_length _)
    rw [← hout] at c1 c2 c3 c4
    exact ⟨hfin, c1, c2, c3, c4⟩

theorem example_loop_opened : Opened example_loop_state :=
  ⟨(wavedump_open_spec example_env example_state "-" example_open_mem).2.1.mem_file,
    (wavedump_open_spec example_env example_state "-" example_open_mem).2.1.disk_file,
    (wavedump_open_spec example_env example_state "-" example_open_mem).2.1.len_lt⟩

/-- C11, on the state of a memory-backend session with loop sample 5. -/
theorem cue_chunk_size_witness :
    example_loop_state.wave.loop_sample ≠ 0
      ∧ Opened example_loop_state
      ∧ inside_block example_loop_state
      ∧ writes_inside example_loop_state
          ([str_bytes "cue " ++ store32 28 ++ store32 1,
            (loop_point example_loop_state.wave.loop_sample).bytes]
            ++ labl_writes 0 (str_bytes "Loop point"))
      ∧ finish_loop example_loop_state
          = (labl_writes 0 (str_bytes "Loop point")).foldl wavedump_write
              (wavedump_write
                (wavedump_write example_loop_state
                  (str_bytes "cue " ++ store32 28 ++ store32 1))
                (loop_point example_loop_state.wave.loop_sample).bytes)
      ∧ load32 (str_bytes "cue " ++ store32 28 ++ store32 1) 4 = 28
      ∧ (store32 1).length + (loop_point example_loop_state.wave.loop_sample).bytes.length
          = 28
      ∧ load32 (finished_output (finish_loop example_loop_state))
          ((finished_output example_loop_state).length + 4) = 28
      ∧ (finished_output (finish_loop example_loop_state)).drop
            ((finished_output example_loop_state).length + 8 + 28)
          = labl_chunk 0 (str_bytes "Loop point") :=
  ⟨by decide, example_loop_opened, by decide, by decide,
    (cue_chunk_size example_loop_state (by decide)).1,
    (cue_chunk_size example_loop_state (by decide)).2.1,
    (cue_chunk_size example_loop_state (by decide)).2.2.2.1,
    ((cue_chunk_size example_loop_state (by decide)).2.2.2.2.2 example_loop_opened
      (by decide) (by decide)).2.2.1,
    ((cue_chunk_size example_loop_state (by decide)).2.2.2.2.2 example_loop_opened
      (by decide) (by decide)).2.2.2.2⟩

/-! ## Word alignment (C12) -/

/-- Length of the finished output of a session: even without a loop sample,
odd with one, since the loop chunks take 71 bytes. -/
theorem session_length_parity (env : Env) (st0 : State) (fn : String) (calls : List Call)
    (sr bps ch : Nat) (hopen : (wavedump_open env st0 fn).1 = true)
    (hfit : mem_fits env st0 fn calls) :
    ∃ st, session env st0 fn calls sr bps ch = some st
      ∧ (finished_output st).length
          = 44 + (appended calls).length + (appended calls).length % 2
              + (if loop_after 0 calls ≠ 0 then 71 else 0)
      ∧ (finished_output st).length % 2 = if loop_after 0 calls ≠ 0 then 1 else 0 := by
  obtain ⟨st, hs, hlen, _⟩ := session_size_fields env st0 fn calls sr bps ch hopen hfit
  rw [container_size_eq] at hlen
  refine ⟨st, hs, hlen, ?_⟩
  rw [hlen]
  split <;> omega

theorem example_loop_session :
    ∃ st, session example_env example_state "out.wav" [Call.loop_set 1] 44100 16 2 = some st
      ∧ (finished_output st).length = 115
      ∧ (finished_output st).drop 104 = str_bytes "Loop point" ++ [0] := by
  obtain ⟨st, hs, hl, _⟩ := session_length_parity example_env example_state "out.wav"
    [Call.loop_set 1] 44100 16 2 example_open_disk (mem_fits_of_ne _ _ _ _ (by decide))
  obtain ⟨st1, hs1, hd⟩ := session_body example_env example_state "out.wav"
    [Call.loop_set 1] 44100 16 2 example_open_disk (mem_fits_of_ne _ _ _ _ (by decide))
  have e : st1 = st := Option.some.inj (hs1.symm.trans hs)
  subst e
  refine ⟨st1, hs, ?_, ?_⟩
  · rw [hl]
    decide
  · rw [show 104 = 44 + 60 from rfl, ← List.drop_drop, hd]
    decide

/-- C12, the code at a failing input: a file-backend session that sets loop
sample 1, appends nothing and finishes. The output is 115 bytes long, an odd
length, and its RIFF size field holds 107. The `LIST` chunk starts at offset
80 with size 27, so it ends at offset 115; inside it the `labl` chunk starts
at offset 92 with size 15, its data being the point id and the eleven bytes of
`Loop point` with the terminator, the last byte of the output. Neither chunk
is followed by a pad byte. -/
theorem label_chunk_unpadded :
    (session example_env example_state "out.wav" [Call.loop_set 1] 44100 16 2).map
        (fun st => (finished_output st).length) = some 115
      ∧ (session example_env example_state "out.wav" [Call.loop_set 1] 44100 16 2).map
          (fun st => (finished_output st).length % 2) = some 1
      ∧ (session example_env example_state "out.wav" [Call.loop_set 1] 44100 16 2).map
          (fun st => load32 (finished_output st) 4) = some 107
      ∧ (session example_env example_state "out.wav" [Call.loop_set 1] 44100 16 2).map
          (fun st => ((finished_output st).drop 80).take 4) = some (str_bytes "LIST")
      ∧ (session example_env example_state "out.wav" [Call.loop_set 1] 44100 16 2).map
          (fun st => load32 (finished_output st) 84) = some 27
      ∧ (session example_env example_state "out.wav" [Call.loop_set 1] 44100 16 2).map
          (fun st => ((finished_output st).drop 92).take 4) = some (str_bytes "labl")
      ∧ (session example_env example_state "out.wav" [Call.loop_set 1] 44100 16 2).map
          (fun st => load32 (finished_output st) 96) = some 15
      ∧ (session example_env example_state "out.wav" [Call.loop_set 1] 44100 16 2).map
          (fun st => (finished_output st).drop 104) = some (str_bytes "Loop point" ++ [0]) := by
  obtain ⟨st, hs, hl, hd⟩ := example_loop_session
  refine ⟨?_, ?_, by decide, by decide, by decide, by decide, by decide, ?_⟩
  · rw [hs, Option.map_some', hl]
  · rw [hs, Option.map_some', hl]
  · rw [hs, Option.map_some', hd]

/-! ## Splitting an append (C20) -/

theorem appended_append (xs ys : List Call) :
    appended (xs ++ ys) = appended xs ++ appended ys := by
  induction xs with
  | nil => rfl
  | cons c cs ih =>
    cases c with
    | append buf =>
      show buf ++ appended (cs ++ ys) = buf ++ appended cs ++ appended ys
      rw [ih, List.append_assoc]
    | loop_set s => exact ih

theorem loop_after_append (xs ys : List Call) :
    ∀ s, loop_after s (xs ++ ys) = loop_after (loop_after s xs) ys := by
  induction xs with
  | nil => intro s; rfl
  | cons c cs ih =>
    intro s
    cases c with
    | append buf => exact ih s
    | loop_set t => exact ih (u32 t)

theorem split_appended (pre post : List Call) (a b : List Nat) :
    appended (pre ++ Call.append a :: Call.append b :: post)
        = appended (pre ++ Call.append (a ++ b) :: post)
      ∧ loop_after 0 (pre ++ Call.append a :: Call.append b :: post)
        = loop_after 0 (pre ++ Call.append (a ++ b) :: post) := by
  simp only [appended_append, loop_after_append, appended, loop_after, List.append_assoc,
    and_self]

theorem empty_appended (pre post : List Call) :
    appended (pre ++ Call.append [] :: post) = appended (pre ++ post)
      ∧ loop_after 0 (pre ++ Call.append [] :: post) = loop_after 0 (pre ++ post) := by
  simp only [appended_append, loop_after_append, appended, loop_after, List.nil_append,
    and_self]

/-- Two sessions that keep their copies inside the block, with the same
appended bytes and the same final loop sample, finish with the same data size
and the same output. -/
theorem session_congr (env : Env) (st0 : State) (fn : String) (xs ys : List Call)
    (sr bps ch : Nat) (hopen : (wavedump_open env st0 fn).1 = true)
    (hx : mem_fits env st0 fn xs) (hy : mem_fits env st0 fn ys)
    (ha : appended ys = appended xs) (hl : loop_after 0 ys = loop_after 0 xs) :
    ∃ sx sy, session env st0 fn xs sr bps ch = some sx
      ∧ session env st0 fn ys sr bps ch = some sy
      ∧ sy.wave.data_size = sx.wave.data_size
      ∧ finished_output sy = finished_output sx := by
  obtain ⟨sx, hsx, ox, dx, _⟩ := session_layout env st0 fn xs sr bps ch hopen hx
  obtain ⟨sy, hsy, oy, dy, _⟩ := session_layout env st0 fn ys sr bps ch hopen hy
  refine ⟨sx, sy, hsx, hsy, ?_, ?_⟩
  · rw [dx, dy, ha]
  · rw [ox, oy]
    simp only [container_size, ha, hl]

/-- Splitting an append where both sessions keep their copies inside the
block: the session that appends `a ++ b` in one call and the session that
appends `a` and then `b` finish with the same data size and the same output;
so do a session and the one that appends the empty buffer in addition. On the
file backend this is every pair of sessions. -/
theorem append_split_inside (env : Env) (st0 : State) (fn : String)
    (pre post : List Call) (a b : List Nat) (sr bps ch : Nat)
    (hopen : (wavedump_open env st0 fn).1 = true)
    (hone : mem_fits env st0 fn (pre ++ Call.append (a ++ b) :: post))
    (htwo : mem_fits env st0 fn (pre ++ Call.append a :: Call.append b :: post))
    (hwithout : mem_fits env st0 fn (pre ++ post))
    (hextra : mem_fits env st0 fn (pre ++ Call.append [] :: post)) :
    (∃ one two,
        session env st0 fn (pre ++ Call.append (a ++ b) :: post) sr bps ch = some one
          ∧ session env st0 fn (pre ++ Call.append a :: Call.append b :: post) sr bps ch
              = some two
          ∧ two.wave.data_size = one.wave.data_size
          ∧ finished_output two = finished_output one)
      ∧ ∃ without extra,
          session env st0 fn (pre ++ post) sr bps ch = some without
            ∧ session env st0 fn (pre ++ Call.append [] :: post) sr bps ch = some extra
            ∧ extra.wave.data_size = without.wave.data_size
            ∧ finished_output extra = finished_output without :=
  ⟨session_congr env st0 fn _ _ sr bps ch hopen hone htwo (split_appended pre post a b).1
      (split_appended pre post a b).2,
    session_congr env st0 fn _ _ sr bps ch hopen hwithout hextra
      (empty_appended pre post).1 (empty_appended pre post).2⟩

theorem one_call_overruns (buf : List Nat) (hb : buf.length = 17000000) :
    (wavedump_append (wavedump_open example_env example_state "-").2 buf).wave.len = 17000044
      ∧ (wavedump_append (wavedump_open example_env example_state "-").2 buf).wave.memsize
          = 12582912 := by
  obtain ⟨hf, hm, hl, hc, _⟩ := example_open_fields
  obtain ⟨e1, e2, _⟩ := append_capacity _ buf hf hm
  rw [e1, e2, hl, hc, hb]
  decide

theorem two_calls_fit (a b : List Nat) (ha : a.length = 9000000) (hb : b.length = 8000000) :
    (wavedump_append (wavedump_open example_env example_state "-").2 a).wave.len = 9000044
      ∧ (wavedump_append (wavedump_open example_env example_state "-").2 a).wave.memsize
          = 12582912
      ∧ (wavedump_append
          (wavedump_append (wavedump_open example_env example_state "-").2 a) b).wave.len
          = 17000044
      ∧ (wavedump_append
          (wavedump_append (wavedump_open example_env example_state "-").2 a) b).wave.memsize
          = 18874368 := by
  obtain ⟨hf, hm, hl, hc, _⟩ := example_open_fields
  obtain ⟨e1, e2, _, hf1, hm1⟩ := append_capacity _ a hf hm
  obtain ⟨e3, e4, _⟩ := append_capacity _ b hf1 hm1
  have l1 : (wavedump_append (wavedump_open example_env example_state "-").2 a).wave.len
      = 9000044 := by
    rw [e1, hl, ha]
    decide
  have c1 : (wavedump_append (wavedump_open example_env example_state "-").2 a).wave.memsize
      = 12582912 := by
    rw [e2, hl, hc, ha]
    decide
  refine ⟨l1, c1, ?_, ?_⟩
  · rw [e3, l1, hb]
    decide
  · rw [e4, l1, c1, hb]
    decide

/-- C20, the code at a failing input: a memory-backend session that appends
17000000 bytes, as one buffer `a ++ b` of 9000000 and 8000000 bytes or as `a`
and then `b`. In one call the block is grown once, to 12582912 bytes, and the
copy runs to offset 17000044: it leaves the block by 4417132 bytes. In two
calls the block is grown at each call, to 12582912 and then to 18874368
bytes, and both copies stay inside it (9000044 and 17000044). -/
theorem split_append_overrun :
    (List.replicate 9000000 1 ++ List.replicate 8000000 2).length = 17000000
      ∧ (wavedump_append (wavedump_open example_env example_state "-").2
          (List.replicate 9000000 1 ++ List.replicate 8000000 2)).wave.len = 17000044
      ∧ (wavedump_append (wavedump_open example_env example_state "-").2
          (List.replicate 9000000 1 ++ List.replicate 8000000 2)).wave.memsize = 12582912
      ∧ (wavedump_append (wavedump_open example_env example_state "-").2
          (List.replicate 9000000 1)).wave.len = 9000044
      ∧ (wavedump_append (wavedump_open example_env example_state "-").2
          (List.replicate 9000000 1)).wave.memsize = 12582912
      ∧ (wavedump_append
          (wavedump_append (wavedump_open example_env example_state "-").2
            (List.replicate 9000000 1)) (List.replicate 8000000 2)).wave.len = 17000044
      ∧ (wavedump_append
          (wavedump_append (wavedump_open example_env example_state "-").2
            (List.replicate 9000000 1)) (List.replicate 8000000 2)).wave.memsize
          = 18874368 := by
  have hlen : (List.replicate 9000000 1 ++ List.replicate 8000000 2).length = 17000000 := by
    rw [List.length_append, List.length_replicate, List.length_replicate]
  obtain ⟨h1, h2⟩ := one_call_overruns _ hlen
  obtain ⟨h3, h4, h5, h6⟩ := two_calls_fit (List.replicate 9000000 1)
    (List.replicate 8000000 2) (List.length_replicate _ _) (List.length_replicate _ _)
  exact ⟨hlen, h1, h2, h3, h4, h5, h6⟩

end Wavedump
